import Mathlib

/-!
Verification of the select-based event dispatcher in
src/thrill/net/tcp/select_dispatcher.cpp.

The dispatcher state is embedded shallowly:

* Watch      - one entry of the watch table (active flag, read/write
               callback queues, optional exception callback), as used by
               DispatchOne.
* Select     - the interest-bit set, modelled as three boolean predicates
               over descriptor numbers, with the Clear operations of the
               source.
* Ready      - the ready set produced by select(), i.e. the state of the
               cloned fdset after a positive select_timeout result.
* Callbacks are an abstract type C together with an interpretation
  function run : C -> DState C -> DState C x Bool: invoking a callback may
  mutate the whole dispatcher state (the C++ callbacks are arbitrary
  closures that may grow the watch table) and returns the keep-me flag.
* The two unbounded loops of DispatchOne (the per-descriptor for loop,
  whose bound watch_.size() is re-read every iteration, and the
  front-callback draining while loops) take a fuel argument, since a
  misbehaving callback can make the C++ loops run forever; theorems
  quantify over sufficient fuel.
* The outcome of fdset.select_timeout is an oracle value SelectOutcome
  (negative with errno, zero, or positive with a ready set).

Every invoked callback is recorded in a trace of Event values (descriptor,
kind 0 = read, 1 = write, 2 = exception, and the callback, none for the
default exception callback), so that claims about which callbacks run and
in which order are statable.
-/

namespace SelectDispatcher

/-- One entry of the watch table, as in the Watch struct used by
`DispatchOne`: active flag, read and write callback queues, and the
optional exception callback. -/
structure Watch (C : Type) where
  active : Bool
  read_cb : List C
  write_cb : List C
  except_cb : Option C
deriving DecidableEq

instance (C : Type) : Inhabited (Watch C) where
  default := ⟨false, [], [], none⟩

/-- The persistent interest-bit set `select_`: read, write and exception
interest per descriptor number. -/
structure Select where
  read : Nat → Bool
  write : Nat → Bool
  exc : Nat → Bool

/-- ClearRead of the Select class. -/
def Select.clearRead (s : Select) (fd : Nat) : Select :=
  { s with read := fun x => if x = fd then false else s.read x }

/-- ClearWrite of the Select class. -/
def Select.clearWrite (s : Select) (fd : Nat) : Select :=
  { s with write := fun x => if x = fd then false else s.write x }

/-- ClearException of the Select class. -/
def Select.clearExc (s : Select) (fd : Nat) : Select :=
  { s with exc := fun x => if x = fd then false else s.exc x }

/-- The ready set reported by a positive select: per-descriptor read,
write and exception readiness of the cloned fdset after the wait. -/
structure Ready where
  inRead : Nat → Bool
  inWrite : Nat → Bool
  inExc : Nat → Bool

/-- The dispatcher state mutated by DispatchOne: the watch table `watch_`
(indexed by descriptor number) and the interest set `select_`. -/
structure DState (C : Type) where
  watch : List (Watch C)
  select : Select

/-- A recorded callback invocation: descriptor, kind (0 = read callback,
1 = write callback, 2 = exception callback or default exception
callback), and the invoked callback (none for the default exception
callback). -/
structure Event (C : Type) where
  fd : Nat
  kind : Nat
  cb : Option C
deriving DecidableEq

/-- Key that orders events by descriptor first and kind second (kinds are
at most 2, so the lexicographic order on (fd, kind) coincides with the
order of this key). -/
def eventKey {C : Type} (e : Event C) : Nat := 3 * e.fd + e.kind

/-- `watch_[fd]` as used by DispatchOne; out-of-range reads yield the
default (inactive, empty) entry, which the code never accesses because
the loop bound is `watch_.size()`. -/
def getWatch {C : Type} (s : DState C) (fd : Nat) : Watch C :=
  s.watch.getD fd default

/-- The watch-table entry at an index, as an optional value (used to state
frame properties precisely, including table length). -/
def entryAt {C : Type} (s : DState C) (fd : Nat) : Option (Watch C) :=
  s.watch[fd]?

/-- Store an entry back into the watch table. -/
def setWatch {C : Type} (s : DState C) (fd : Nat) (w : Watch C) : DState C :=
  { s with watch := s.watch.set fd w }

/-- `w->read_cb.pop_front()` after re-fetching `w = &watch_[fd]`. -/
def popRead {C : Type} (s : DState C) (fd : Nat) : DState C :=
  let w := getWatch s fd
  setWatch s fd { w with read_cb := w.read_cb.tail }

/-- `w->write_cb.pop_front()` after re-fetching `w = &watch_[fd]`. -/
def popWrite {C : Type} (s : DState C) (fd : Nat) : DState C :=
  let w := getWatch s fd
  setWatch s fd { w with write_cb := w.write_cb.tail }

/-- Replace the read queue of the entry at `fd`. -/
def setReadQ {C : Type} (s : DState C) (fd : Nat) (l : List C) : DState C :=
  setWatch s fd { getWatch s fd with read_cb := l }

/-- Replace the write queue of the entry at `fd`. -/
def setWriteQ {C : Type} (s : DState C) (fd : Nat) (l : List C) : DState C :=
  setWatch s fd { getWatch s fd with write_cb := l }

/-- The read-callback draining loop of DispatchOne:
`while (w->read_cb.size() && w->read_cb.front()() == false) { w = &watch_[fd]; w->read_cb.pop_front(); }`.
Invoking the front callback may mutate the whole state; the entry is
re-fetched by index after each invocation, and the front of the possibly
mutated queue is popped when the callback returned false. Fuel bounds the
number of iterations. -/
def drainRead {C : Type} (run : C → DState C → DState C × Bool) (fd : Nat) :
    Nat → DState C → DState C × List (Event C)
  | 0, s => (s, [])
  | fuel + 1, s =>
    match (getWatch s fd).read_cb with
    | [] => (s, [])
    | c :: _ =>
      let p := run c s
      if p.2 then (p.1, [⟨fd, 0, some c⟩])
      else
        let q := drainRead run fd fuel (popRead p.1 fd)
        (q.1, ⟨fd, 0, some c⟩ :: q.2)

/-- The write-callback draining loop of DispatchOne, symmetric to
`drainRead`. -/
def drainWrite {C : Type} (run : C → DState C → DState C × Bool) (fd : Nat) :
    Nat → DState C → DState C × List (Event C)
  | 0, s => (s, [])
  | fuel + 1, s =>
    match (getWatch s fd).write_cb with
    | [] => (s, [])
    | c :: _ =>
      let p := run c s
      if p.2 then (p.1, [⟨fd, 1, some c⟩])
      else
        let q := drainWrite run fd fuel (popWrite p.1 fd)
        (q.1, ⟨fd, 1, some c⟩ :: q.2)

/-- Lines 97-107 of the source: after the read drain, if the read queue is
empty, clear the read interest bit; if additionally the write queue is
empty and no exception callback exists, clear the write and exception
bits and deactivate the entry. -/
def afterReadDrain {C : Type} (fd : Nat) (s : DState C) : DState C :=
  let w := getWatch s fd
  if w.read_cb.isEmpty then
    if w.write_cb.isEmpty && w.except_cb.isNone then
      setWatch { s with select := ((s.select.clearRead fd).clearWrite fd).clearExc fd }
        fd { w with active := false }
    else { s with select := s.select.clearRead fd }
  else s

/-- Lines 129-139 of the source, symmetric to `afterReadDrain`. -/
def afterWriteDrain {C : Type} (fd : Nat) (s : DState C) : DState C :=
  let w := getWatch s fd
  if w.write_cb.isEmpty then
    if w.read_cb.isEmpty && w.except_cb.isNone then
      setWatch { s with select := ((s.select.clearWrite fd).clearRead fd).clearExc fd }
        fd { w with active := false }
    else { s with select := s.select.clearWrite fd }
  else s

/-- The read-ready branch of DispatchOne (lines 85-115): drain the read
queue if non-empty, otherwise log the missing handler and clear the read
interest bit. -/
def processRead {C : Type} (run : C → DState C → DState C × Bool)
    (fuel fd : Nat) (s : DState C) : DState C × List (Event C) :=
  if (getWatch s fd).read_cb.isEmpty then
    ({ s with select := s.select.clearRead fd }, [])
  else
    let p := drainRead run fd fuel s
    (afterReadDrain fd p.1, p.2)

/-- The write-ready branch of DispatchOne (lines 117-147). -/
def processWrite {C : Type} (run : C → DState C → DState C × Bool)
    (fuel fd : Nat) (s : DState C) : DState C × List (Event C) :=
  if (getWatch s fd).write_cb.isEmpty then
    ({ s with select := s.select.clearWrite fd }, [])
  else
    let p := drainWrite run fd fuel s
    (afterWriteDrain fd p.1, p.2)

/-- The exception-ready branch of DispatchOne (lines 149-160): invoke the
exception callback if present (a false return clears the exception
interest bit, the callback itself stays in its slot), otherwise invoke
DefaultExceptionCallback (an external collaborator, recorded as an event
with no callback payload). -/
def processExc {C : Type} (run : C → DState C → DState C × Bool)
    (fd : Nat) (s : DState C) : DState C × List (Event C) :=
  match (getWatch s fd).except_cb with
  | some c =>
    let p := run c s
    if p.2 then (p.1, [⟨fd, 2, some c⟩])
    else ({ p.1 with select := p.1.select.clearExc fd }, [⟨fd, 2, some c⟩])
  | none => (s, [⟨fd, 2, none⟩])

/-- The body of the per-descriptor loop of DispatchOne for one descriptor:
skip inactive entries, then handle read readiness, write readiness and
exception readiness in this order. -/
def processFd {C : Type} (run : C → DState C → DState C × Bool)
    (fuel : Nat) (ready : Ready) (fd : Nat) (s : DState C) :
    DState C × List (Event C) :=
  if (getWatch s fd).active then
    let a := if ready.inRead fd then processRead run fuel fd s else (s, [])
    let b := if ready.inWrite fd then processWrite run fuel fd a.1 else (a.1, [])
    let c := if ready.inExc fd then processExc run fd b.1 else (b.1, [])
    (c.1, a.2 ++ b.2 ++ c.2)
  else (s, [])

/-- The per-descriptor loop of DispatchOne
(`for (int fd = 3; fd < static_cast<int>(watch_.size()); ++fd)`); the
bound `watch_.size()` is re-read from the current state each iteration,
because callbacks may grow the table. Fuel bounds the number of
iterations. -/
def loopFds {C : Type} (run : C → DState C → DState C × Bool)
    (fuelD : Nat) (ready : Ready) :
    Nat → Nat → DState C → DState C × List (Event C)
  | 0, _, s => (s, [])
  | fuel + 1, fd, s =>
    if fd < s.watch.length then
      let p := processFd run fuelD ready fd s
      let q := loopFds run fuelD ready fuel (fd + 1) p.1
      (q.1, p.2 ++ q.2)
    else (s, [])

/-- Outcome of `fdset.select_timeout(...)`: negative with an errno value,
zero (timeout), or positive with the resulting ready set. -/
inductive SelectOutcome where
  | neg (errno : Int)
  | zero
  | pos (ready : Ready)

/-- The EINTR errno value (interrupted by signal). -/
def EINTR : Int := 4

/-- One iteration of dispatching select() (lines 22-162 of the source):
classify the outcome of the wait primitive, then run the per-descriptor
loop starting at descriptor 3 on a positive result. The returned value is
the new dispatcher state together with the trace of invoked callbacks, or
the errno carried by the thrown Exception. -/
def DispatchOne {C : Type} (run : C → DState C → DState C × Bool)
    (fuel : Nat) (s : DState C) (o : SelectOutcome) :
    Except Int (DState C × List (Event C)) :=
  match o with
  | .neg e => if e = EINTR then .ok (s, []) else .error e
  | .zero => .ok (s, [])
  | .pos ready => .ok (loopFds run fuel ready fuel 3 s)

/-- Outcome of `Interrupt()`: either the one-byte write succeeded, or
`die_unless(wb == 1)` fires with the offending write result. -/
inductive InterruptOutcome where
  | success
  | fatal (wb : Int)
deriving DecidableEq

/-- The write-retry loop of `Interrupt()` over an oracle sequence of
`write` results: retry while the write reports zero bytes, then check
`die_unless(wb == 1)`; `none` when the oracle sequence is exhausted while
still retrying. -/
def interruptWrites : List Int → Option InterruptOutcome
  | [] => none
  | wb :: rest =>
    if wb = 0 then interruptWrites rest
    else if wb = 1 then some .success
    else some (.fatal wb)

/-- `Interrupt()` (lines 164-180): writes one byte to the self-pipe; it
touches no dispatcher state. -/
def Interrupt {C : Type} (s : DState C) (writes : List Int) :
    DState C × Option InterruptOutcome :=
  (s, interruptWrites writes)

/-- `SelfPipeCallback()` (lines 182-188) over an oracle sequence of `read`
results: repeatedly read into the scratch buffer while the result is
positive, then return true. The first component counts the performed
reads, the second is the returned keep-me flag. -/
def selfPipeLoop : List Int → Nat × Bool
  | [] => (0, true)
  | r :: rest =>
    if 0 < r then
      let p := selfPipeLoop rest
      (p.1 + 1, p.2)
    else (1, true)

/-- The self-verify scan of DispatchOne (lines 27-37): for every active
entry from descriptor 3 up to the table size, assert that emptiness of
the read queue differs from the read interest bit and emptiness of the
write queue differs from the write interest bit. -/
def selfVerifyPass {C : Type} (s : DState C) : Bool :=
  (List.range s.watch.length).all fun fd =>
    if fd < 3 then true
    else
      let w := getWatch s fd
      if w.active then
        ((w.read_cb.isEmpty != s.select.read fd) &&
         (w.write_cb.isEmpty != s.select.write fd))
      else true

/-- Invariant I2 exactly as the spec words it (read bit iff read queue
non-empty, write bit iff write queue non-empty, exception bit iff an
exception handler exists or the descriptor is otherwise active), for
every active in-range descriptor. -/
abbrev I2Full {C : Type} (s : DState C) : Prop :=
  ∀ fd, fd < s.watch.length → (getWatch s fd).active = true →
    (s.select.read fd = !(getWatch s fd).read_cb.isEmpty ∧
     s.select.write fd = !(getWatch s fd).write_cb.isEmpty ∧
     s.select.exc fd = ((getWatch s fd).except_cb.isSome || (getWatch s fd).active))

/-- The read/write clauses of invariant I2 at one descriptor. -/
abbrev InvRWAt {C : Type} (s : DState C) (fd : Nat) : Prop :=
  (getWatch s fd).active = true →
    (s.select.read fd = !(getWatch s fd).read_cb.isEmpty ∧
     s.select.write fd = !(getWatch s fd).write_cb.isEmpty)

/-- The read/write clauses of invariant I2 for every in-range
descriptor. -/
abbrev I2RW {C : Type} (s : DState C) : Prop :=
  ∀ fd, fd < s.watch.length → InvRWAt s fd

/-- Callback interpretation over `C := Bool` where each callback simply
returns its own value and mutates nothing (pure callbacks). -/
def runRet : Bool → DState Bool → DState Bool × Bool := fun c s => (s, c)

/-- Callback interpretation over `C := Nat` (callback identifiers) where
callback 2 returns true and all others return false, mutating nothing. -/
def runIdx : Nat → DState Nat → DState Nat × Bool := fun c s => (s, c == 2)

/-- Callback interpretation over `C := Unit` where the callback returns
true and mutates nothing (the self-pipe callback contract). -/
def runKeep : Unit → DState Unit → DState Unit × Bool := fun _ s => (s, true)

/-- Concrete table: descriptor 3 active with three read callbacks 0, 1, 2
registered in order, read interest set. -/
def stChain : DState Nat :=
  ⟨[⟨false, [], [], none⟩, ⟨false, [], [], none⟩, ⟨false, [], [], none⟩,
    ⟨true, [0, 1, 2], [], none⟩],
   ⟨fun x => x == 3, fun _ => false, fun _ => false⟩⟩

/-- Ready set: descriptor 3 read-ready. -/
def rdChain : Ready := ⟨fun x => x == 3, fun _ => false, fun _ => false⟩

/-- Concrete table: descriptor 3 active with one read callback returning
false, read and exception interest set, nothing else registered. -/
def stDrain : DState Bool :=
  ⟨[⟨false, [], [], none⟩, ⟨false, [], [], none⟩, ⟨false, [], [], none⟩,
    ⟨true, [false], [], none⟩],
   ⟨fun x => x == 3, fun _ => false, fun x => x == 3⟩⟩

/-- Concrete table: descriptor 3 active with only an exception callback
returning false, exception interest set. -/
def stExc : DState Bool :=
  ⟨[⟨false, [], [], none⟩, ⟨false, [], [], none⟩, ⟨false, [], [], none⟩,
    ⟨true, [], [], some false⟩],
   ⟨fun _ => false, fun _ => false, fun x => x == 3⟩⟩

/-- Ready set: descriptor 3 exception-ready. -/
def rdExc : Ready := ⟨fun _ => false, fun _ => false, fun x => x == 3⟩

/-- Concrete table: descriptor 3 active with empty read and write queues,
reported both read-ready and write-ready (registered interest without
handlers). -/
def stMiss : DState Bool :=
  ⟨[⟨false, [], [], none⟩, ⟨false, [], [], none⟩, ⟨false, [], [], none⟩,
    ⟨true, [], [], some false⟩],
   ⟨fun x => x == 3, fun x => x == 3, fun x => x == 3⟩⟩

/-- Ready set: descriptor 3 read-ready and write-ready. -/
def rdMiss : Ready := ⟨fun x => x == 3, fun x => x == 3, fun _ => false⟩

/-- Concrete table for the self-pipe scenario: descriptor 3 holds one
permanently armed read callback. -/
def stPipe : DState Unit :=
  ⟨[⟨false, [], [], none⟩, ⟨false, [], [], none⟩, ⟨false, [], [], none⟩,
    ⟨true, [()], [], none⟩],
   ⟨fun x => x == 3, fun _ => false, fun _ => false⟩⟩

/-- Two dispatcher states agree at descriptor `fd2`: same watch-table
entry (including whether the index is in range) and same three interest
bits. -/
def SameAt {C : Type} (s s' : DState C) (fd2 : Nat) : Prop :=
  entryAt s' fd2 = entryAt s fd2 ∧
  s'.select.read fd2 = s.select.read fd2 ∧
  s'.select.write fd2 = s.select.write fd2 ∧
  s'.select.exc fd2 = s.select.exc fd2

/-- The callback interpretation never modifies the watch entry or the
interest bits of descriptor `fd2` (the frame hypothesis on invoked
callbacks). -/
def PreservesFd {C : Type} (run : C → DState C → DState C × Bool) (fd2 : Nat) : Prop :=
  ∀ c s1, SameAt s1 (run c s1).1 fd2

/-- Pure model of one draining loop: given the fixed return value
`retc c` of each callback, split the queue into the prefix of invoked
callbacks and the remaining queue (a front callback returning true is
invoked but not popped; fuel bounds the invocations). -/
def chainStep {C : Type} (retc : C → Bool) : Nat → List C → List C × List C
  | 0, q => ([], q)
  | _ + 1, [] => ([], [])
  | fuel + 1, c :: rest =>
    if retc c then ([c], c :: rest)
    else
      let p := chainStep retc fuel rest
      (c :: p.1, p.2)

end SelectDispatcher

namespace SelectDispatcher

variable {C : Type}

theorem list_set_getD_self {α : Type} (d : α) :
    ∀ (l : List α) (n : Nat), l.set n (l.getD n d) = l := by
  intro l
  induction l with
  | nil => intro n; rfl
  | cons a t ih =>
    intro n
    cases n with
    | zero => rfl
    | succ n => simpa using ih n

@[simp] theorem select_setWatch (s : DState C) (fd : Nat) (w : Watch C) :
    (setWatch s fd w).select = s.select := rfl

@[simp] theorem length_setWatch (s : DState C) (fd : Nat) (w : Watch C) :
    (setWatch s fd w).watch.length = s.watch.length := by
  simp [setWatch]

theorem getWatch_eq_entryAt (s : DState C) (fd : Nat) :
    getWatch s fd = (entryAt s fd).getD default := by
  simp [getWatch, entryAt, List.getD_eq_getElem?_getD]

theorem getWatch_oob (s : DState C) (fd : Nat) (h : s.watch.length ≤ fd) :
    getWatch s fd = default :=
  List.getD_eq_default _ _ h

theorem lt_of_active {s : DState C} {fd : Nat}
    (h : (getWatch s fd).active = true) : fd < s.watch.length := by
  by_contra hge
  rw [getWatch_oob s fd (Nat.le_of_not_lt hge)] at h
  simp [default] at h

theorem lt_of_read_cb_ne {s : DState C} {fd : Nat}
    (h : (getWatch s fd).read_cb ≠ []) : fd < s.watch.length := by
  by_contra hge
  rw [getWatch_oob s fd (Nat.le_of_not_lt hge)] at h
  simp [default] at h

theorem lt_of_write_cb_ne {s : DState C} {fd : Nat}
    (h : (getWatch s fd).write_cb ≠ []) : fd < s.watch.length := by
  by_contra hge
  rw [getWatch_oob s fd (Nat.le_of_not_lt hge)] at h
  simp [default] at h

theorem lt_of_except_cb_ne {s : DState C} {fd : Nat}
    (h : (getWatch s fd).except_cb ≠ none) : fd < s.watch.length := by
  by_contra hge
  rw [getWatch_oob s fd (Nat.le_of_not_lt hge)] at h
  simp [default] at h

theorem getWatch_setWatch_self {s : DState C} {fd : Nat} (w : Watch C)
    (h : fd < s.watch.length) : getWatch (setWatch s fd w) fd = w := by
  simp [getWatch, setWatch, List.getD_eq_getElem?_getD, List.getElem?_set_self h]

theorem getWatch_setWatch_ne {s : DState C} {fd fd' : Nat} (w : Watch C)
    (h : fd' ≠ fd) : getWatch (setWatch s fd w) fd' = getWatch s fd' := by
  simp [getWatch, setWatch, List.getD_eq_getElem?_getD,
    List.getElem?_set_ne (Ne.symm h)]

theorem entryAt_setWatch_ne {s : DState C} {fd fd' : Nat} (w : Watch C)
    (h : fd' ≠ fd) : entryAt (setWatch s fd w) fd' = entryAt s fd' := by
  simp [entryAt, setWatch, List.getElem?_set_ne (Ne.symm h)]

theorem setWatch_getWatch_self (s : DState C) (fd : Nat) :
    setWatch s fd (getWatch s fd) = s := by
  show ({ s with watch := s.watch.set fd (s.watch.getD fd default) } : DState C) = s
  rw [list_set_getD_self]

theorem setWatch_setWatch (s : DState C) (fd : Nat) (w w' : Watch C) :
    setWatch (setWatch s fd w) fd w' = setWatch s fd w' := by
  simp [setWatch, List.set_set]

@[simp] theorem clearRead_read_self (sel : Select) (fd : Nat) :
    (sel.clearRead fd).read fd = false := by
  simp [Select.clearRead]

theorem clearRead_read_ne (sel : Select) {fd fd' : Nat} (h : fd' ≠ fd) :
    (sel.clearRead fd).read fd' = sel.read fd' := by
  simp [Select.clearRead, h]

@[simp] theorem clearRead_write (sel : Select) (fd fd' : Nat) :
    (sel.clearRead fd).write fd' = sel.write fd' := rfl

@[simp] theorem clearRead_exc (sel : Select) (fd fd' : Nat) :
    (sel.clearRead fd).exc fd' = sel.exc fd' := rfl

@[simp] theorem clearWrite_write_self (sel : Select) (fd : Nat) :
    (sel.clearWrite fd).write fd = false := by
  simp [Select.clearWrite]

theorem clearWrite_write_ne (sel : Select) {fd fd' : Nat} (h : fd' ≠ fd) :
    (sel.clearWrite fd).write fd' = sel.write fd' := by
  simp [Select.clearWrite, h]

@[simp] theorem clearWrite_read (sel : Select) (fd fd' : Nat) :
    (sel.clearWrite fd).read fd' = sel.read fd' := rfl

@[simp] theorem clearWrite_exc (sel : Select) (fd fd' : Nat) :
    (sel.clearWrite fd).exc fd' = sel.exc fd' := rfl

@[simp] theorem clearExc_exc_self (sel : Select) (fd : Nat) :
    (sel.clearExc fd).exc fd = false := by
  simp [Select.clearExc]

theorem clearExc_exc_ne (sel : Select) {fd fd' : Nat} (h : fd' ≠ fd) :
    (sel.clearExc fd).exc fd' = sel.exc fd' := by
  simp [Select.clearExc, h]

@[simp] theorem clearExc_read (sel : Select) (fd fd' : Nat) :
    (sel.clearExc fd).read fd' = sel.read fd' := rfl

@[simp] theorem clearExc_write (sel : Select) (fd fd' : Nat) :
    (sel.clearExc fd).write fd' = sel.write fd' := rfl

@[simp] theorem getWatch_mkselect (s : DState C) (sel : Select) (fd : Nat) :
    getWatch { s with select := sel } fd = getWatch s fd := rfl

@[simp] theorem entryAt_mkselect (s : DState C) (sel : Select) (fd : Nat) :
    entryAt { s with select := sel } fd = entryAt s fd := rfl

@[simp] theorem length_mkselect (s : DState C) (sel : Select) :
    ({ s with select := sel } : DState C).watch.length = s.watch.length := rfl

end SelectDispatcher

namespace SelectDispatcher

theorem setReadQ_self (s : DState C) (fd : Nat) :
    setReadQ s fd ((getWatch s fd).read_cb) = s :=
  setWatch_getWatch_self s fd

theorem setWriteQ_self (s : DState C) (fd : Nat) :
    setWriteQ s fd ((getWatch s fd).write_cb) = s :=
  setWatch_getWatch_self s fd

theorem drainRead_pure {run : C → DState C → DState C × Bool} {retc : C → Bool}
    (hpure : ∀ c s1, run c s1 = (s1, retc c)) (fd : Nat) :
    ∀ (fuel : Nat) (s : DState C),
    drainRead run fd fuel s =
      (setReadQ s fd (chainStep retc fuel (getWatch s fd).read_cb).2,
       ((chainStep retc fuel (getWatch s fd).read_cb).1).map
         fun c => ⟨fd, 0, some c⟩) := by
  intro fuel
  induction fuel with
  | zero =>
    intro s
    simp [drainRead, chainStep, setReadQ_self]
  | succ fuel ih =>
    intro s
    rcases h : (getWatch s fd).read_cb with _ | ⟨c, rest⟩
    · simp [drainRead, h, chainStep]
      have := setReadQ_self s fd
      rw [h] at this
      exact this.symm
    · have hlt : fd < s.watch.length := lt_of_read_cb_ne (by rw [h]; simp)
      by_cases hc : retc c = true
      · simp [drainRead, h, hpure, hc, chainStep]
        have := setReadQ_self s fd
        rw [h] at this
        exact this.symm
      · have hc' : retc c = false := by
          cases hr : retc c
          · rfl
          · exact absurd hr hc
        have hpop : popRead s fd = setWatch s fd { getWatch s fd with read_cb := rest } := by
          simp [popRead, h]
        have hget : getWatch (popRead s fd) fd = { getWatch s fd with read_cb := rest } := by
          rw [hpop]; exact getWatch_setWatch_self _ hlt
        have hrw := ih (popRead s fd)
        rw [hget] at hrw
        simp only [drainRead, h, hpure, hc', if_false]
        rw [hrw]
        have hsetq : ∀ l : List C, setReadQ (popRead s fd) fd l = setReadQ s fd l := by
          intro l
          rw [hpop]
          show setWatch _ fd { getWatch (setWatch s fd _) fd with read_cb := l } = _
          rw [getWatch_setWatch_self _ hlt, setWatch_setWatch]
          rfl
        rw [hsetq]
        simp [chainStep, hc']

theorem drainWrite_pure {run : C → DState C → DState C × Bool} {retc : C → Bool}
    (hpure : ∀ c s1, run c s1 = (s1, retc c)) (fd : Nat) :
    ∀ (fuel : Nat) (s : DState C),
    drainWrite run fd fuel s =
      (setWriteQ s fd (chainStep retc fuel (getWatch s fd).write_cb).2,
       ((chainStep retc fuel (getWatch s fd).write_cb).1).map
         fun c => ⟨fd, 1, some c⟩) := by
  intro fuel
  induction fuel with
  | zero =>
    intro s
    simp [drainWrite, chainStep, setWriteQ_self]
  | succ fuel ih =>
    intro s
    rcases h : (getWatch s fd).write_cb with _ | ⟨c, rest⟩
    · simp [drainWrite, h, chainStep]
      have := setWriteQ_self s fd
      rw [h] at this
      exact this.symm
    · have hlt : fd < s.watch.length := lt_of_write_cb_ne (by rw [h]; simp)
      by_cases hc : retc c = true
      · simp [drainWrite, h, hpure, hc, chainStep]
        have := setWriteQ_self s fd
        rw [h] at this
        exact this.symm
      · have hc' : retc c = false := by
          cases hr : retc c
          · rfl
          · exact absurd hr hc
        have hpop : popWrite s fd = setWatch s fd { getWatch s fd with write_cb := rest } := by
          simp [popWrite, h]
        have hget : getWatch (popWrite s fd) fd = { getWatch s fd with write_cb := rest } := by
          rw [hpop]; exact getWatch_setWatch_self _ hlt
        have hrw := ih (popWrite s fd)
        rw [hget] at hrw
        simp only [drainWrite, h, hpure, hc', if_false]
        rw [hrw]
        have hsetq : ∀ l : List C, setWriteQ (popWrite s fd) fd l = setWriteQ s fd l := by
          intro l
          rw [hpop]
          show setWatch _ fd { getWatch (setWatch s fd _) fd with write_cb := l } = _
          rw [getWatch_setWatch_self _ hlt, setWatch_setWatch]
          rfl
        rw [hsetq]
        simp [chainStep, hc']

theorem sameAt_refl (s : DState C) (fd2 : Nat) : SameAt s s fd2 :=
  ⟨rfl, rfl, rfl, rfl⟩

theorem sameAt_trans {s1 s2 s3 : DState C} {fd2 : Nat}
    (h12 : SameAt s1 s2 fd2) (h23 : SameAt s2 s3 fd2) : SameAt s1 s3 fd2 :=
  ⟨h23.1.trans h12.1, h23.2.1.trans h12.2.1, h23.2.2.1.trans h12.2.2.1,
   h23.2.2.2.trans h12.2.2.2⟩

theorem getWatch_of_sameAt {s s' : DState C} {fd2 : Nat}
    (h : SameAt s s' fd2) : getWatch s' fd2 = getWatch s fd2 := by
  rw [getWatch_eq_entryAt, getWatch_eq_entryAt, h.1]

theorem sameAt_setWatch_ne {s : DState C} {fd fd2 : Nat} (w : Watch C)
    (h : fd ≠ fd2) : SameAt s (setWatch s fd w) fd2 :=
  ⟨entryAt_setWatch_ne w (Ne.symm h), rfl, rfl, rfl⟩

theorem sameAt_clearRead_ne {s : DState C} {fd fd2 : Nat} (h : fd ≠ fd2) :
    SameAt s { s with select := s.select.clearRead fd } fd2 :=
  ⟨rfl, clearRead_read_ne _ (Ne.symm h), rfl, rfl⟩

theorem sameAt_clearWrite_ne {s : DState C} {fd fd2 : Nat} (h : fd ≠ fd2) :
    SameAt s { s with select := s.select.clearWrite fd } fd2 :=
  ⟨rfl, rfl, clearWrite_write_ne _ (Ne.symm h), rfl⟩

theorem sameAt_clearExc_ne {s : DState C} {fd fd2 : Nat} (h : fd ≠ fd2) :
    SameAt s { s with select := s.select.clearExc fd } fd2 :=
  ⟨rfl, rfl, rfl, clearExc_exc_ne _ (Ne.symm h)⟩

theorem pure_preservesFd {run : C → DState C → DState C × Bool} {retc : C → Bool}
    (hpure : ∀ c s1, run c s1 = (s1, retc c)) (fd2 : Nat) :
    PreservesFd run fd2 := by
  intro c s1
  rw [hpure]
  exact sameAt_refl s1 fd2

theorem drainRead_frame {run : C → DState C → DState C × Bool} {fd fd2 : Nat}
    (hrun : PreservesFd run fd2) (hne : fd ≠ fd2) :
    ∀ (fuel : Nat) (s : DState C), SameAt s (drainRead run fd fuel s).1 fd2 := by
  intro fuel
  induction fuel with
  | zero => intro s; exact sameAt_refl s fd2
  | succ fuel ih =>
    intro s
    rcases h : (getWatch s fd).read_cb with _ | ⟨c, rest⟩
    · simp only [drainRead, h]
      exact sameAt_refl s fd2
    · simp only [drainRead, h]
      by_cases hb : (run c s).2 = true
      · simp only [hb, if_true]
        exact hrun c s
      · simp only [hb, if_false]
        have h1 : SameAt s (run c s).1 fd2 := hrun c s
        have h2 : SameAt (run c s).1 (popRead (run c s).1 fd) fd2 :=
          sameAt_setWatch_ne _ hne
        exact sameAt_trans (sameAt_trans h1 h2) (ih _)

theorem drainWrite_frame {run : C → DState C → DState C × Bool} {fd fd2 : Nat}
    (hrun : PreservesFd run fd2) (hne : fd ≠ fd2) :
    ∀ (fuel : Nat) (s : DState C), SameAt s (drainWrite run fd fuel s).1 fd2 := by
  intro fuel
  induction fuel with
  | zero => intro s; exact sameAt_refl s fd2
  | succ fuel ih =>
    intro s
    rcases h : (getWatch s fd).write_cb with _ | ⟨c, rest⟩
    · simp only [drainWrite, h]
      exact sameAt_refl s fd2
    · simp only [drainWrite, h]
      by_cases hb : (run c s).2 = true
      · simp only [hb, if_true]
        exact hrun c s
      · simp only [hb, if_false]
        have h1 : SameAt s (run c s).1 fd2 := hrun c s
        have h2 : SameAt (run c s).1 (popWrite (run c s).1 fd) fd2 :=
          sameAt_setWatch_ne _ hne
        exact sameAt_trans (sameAt_trans h1 h2) (ih _)

theorem afterReadDrain_frame {fd fd2 : Nat} (hne : fd ≠ fd2) (s : DState C) :
    SameAt s (afterReadDrain fd s) fd2 := by
  unfold afterReadDrain
  by_cases h1 : (getWatch s fd).read_cb.isEmpty
  · by_cases h2 : ((getWatch s fd).write_cb.isEmpty && (getWatch s fd).except_cb.isNone) = true
    · simp only [h1, h2, if_true]
      refine sameAt_trans ?_ (sameAt_setWatch_ne _ hne)
      exact ⟨rfl, by simp [clearRead_read_ne _ (Ne.symm hne)],
        by simp [clearWrite_write_ne _ (Ne.symm hne)],
        clearExc_exc_ne _ (Ne.symm hne)⟩
    · simp only [h1, h2, if_true, if_false]
      exact sameAt_clearRead_ne hne
  · simp only [h1, if_false]
    exact sameAt_refl s fd2

theorem afterWriteDrain_frame {fd fd2 : Nat} (hne : fd ≠ fd2) (s : DState C) :
    SameAt s (afterWriteDrain fd s) fd2 := by
  unfold afterWriteDrain
  by_cases h1 : (getWatch s fd).write_cb.isEmpty
  · by_cases h2 : ((getWatch s fd).read_cb.isEmpty && (getWatch s fd).except_cb.isNone) = true
    · simp only [h1, h2, if_true]
      refine sameAt_trans ?_ (sameAt_setWatch_ne _ hne)
      exact ⟨rfl, by simp [clearRead_read_ne _ (Ne.symm hne)],
        by simp [clearWrite_write_ne _ (Ne.symm hne)],
        clearExc_exc_ne _ (Ne.symm hne)⟩
    · simp only [h1, h2, if_true, if_false]
      exact sameAt_clearWrite_ne hne
  · simp only [h1, if_false]
    exact sameAt_refl s fd2

theorem processRead_frame {run : C → DState C → DState C × Bool} {fd fd2 : Nat}
    (hrun : PreservesFd run fd2) (hne : fd ≠ fd2) (fuel : Nat) (s : DState C) :
    SameAt s (processRead run fuel fd s).1 fd2 := by
  unfold processRead
  by_cases h : (getWatch s fd).read_cb.isEmpty
  · simp only [h, if_true]
    exact sameAt_clearRead_ne hne
  · simp only [h, if_false]
    exact sameAt_trans (drainRead_frame hrun hne fuel s) (afterReadDrain_frame hne _)

theorem processWrite_frame {run : C → DState C → DState C × Bool} {fd fd2 : Nat}
    (hrun : PreservesFd run fd2) (hne : fd ≠ fd2) (fuel : Nat) (s : DState C) :
    SameAt s (processWrite run fuel fd s).1 fd2 := by
  unfold processWrite
  by_cases h : (getWatch s fd).write_cb.isEmpty
  · simp only [h, if_true]
    exact sameAt_clearWrite_ne hne
  · simp only [h, if_false]
    exact sameAt_trans (drainWrite_frame hrun hne fuel s) (afterWriteDrain_frame hne _)

theorem processExc_frame {run : C → DState C → DState C × Bool} {fd fd2 : Nat}
    (hrun : PreservesFd run fd2) (hne : fd ≠ fd2) (s : DState C) :
    SameAt s (processExc run fd s).1 fd2 := by
  unfold processExc
  rcases h : (getWatch s fd).except_cb with _ | c
  · exact sameAt_refl s fd2
  · by_cases hb : (run c s).2 = true
    · simp only [hb, if_true]
      exact hrun c s
    · simp only [hb, if_false]
      exact sameAt_trans (hrun c s) (sameAt_clearExc_ne hne)

theorem processFd_frame {run : C → DState C → DState C × Bool} {fd fd2 : Nat}
    (hrun : PreservesFd run fd2) (hne : fd ≠ fd2) (fuel : Nat) (ready : Ready)
    (s : DState C) : SameAt s (processFd run fuel ready fd s).1 fd2 := by
  have step1 : ∀ t : DState C,
      SameAt t (if ready.inRead fd then processRead run fuel fd t else (t, [])).1 fd2 := by
    intro t
    by_cases hr : ready.inRead fd = true
    · simp only [hr, if_true]
      exact processRead_frame hrun hne fuel t
    · simp only [hr, if_false]
      exact sameAt_refl t fd2
  have step2 : ∀ t : DState C,
      SameAt t (if ready.inWrite fd then processWrite run fuel fd t else (t, [])).1 fd2 := by
    intro t
    by_cases hw : ready.inWrite fd = true
    · simp only [hw, if_true]
      exact processWrite_frame hrun hne fuel t
    · simp only [hw, if_false]
      exact sameAt_refl t fd2
  have step3 : ∀ t : DState C,
      SameAt t (if ready.inExc fd then processExc run fd t else (t, [])).1 fd2 := by
    intro t
    by_cases hx : ready.inExc fd = true
    · simp only [hx, if_true]
      exact processExc_frame hrun hne t
    · simp only [hx, if_false]
      exact sameAt_refl t fd2
  unfold processFd
  by_cases ha : (getWatch s fd).active = true
  · simp only [ha, if_true]
    exact sameAt_trans (step1 s) (sameAt_trans (step2 _) (step3 _))
  · simp only [ha, if_false]
    exact sameAt_refl s fd2

theorem processFd_self_id {run : C → DState C → DState C × Bool}
    {ready : Ready} {fd : Nat} {s : DState C} (fuel : Nat)
    (h : (getWatch s fd).active = false ∨
      (ready.inRead fd = false ∧ ready.inWrite fd = false ∧ ready.inExc fd = false)) :
    processFd run fuel ready fd s = (s, []) := by
  rcases h with ha | ⟨hr, hw, hx⟩
  · simp [processFd, ha]
  · simp [processFd, hr, hw, hx]

theorem drainRead_len {run : C → DState C → DState C × Bool} {retc : C → Bool}
    (hpure : ∀ c s1, run c s1 = (s1, retc c)) (fd fuel : Nat) (s : DState C) :
    (drainRead run fd fuel s).1.watch.length = s.watch.length := by
  rw [drainRead_pure hpure]
  simp [setReadQ]

theorem drainWrite_len {run : C → DState C → DState C × Bool} {retc : C → Bool}
    (hpure : ∀ c s1, run c s1 = (s1, retc c)) (fd fuel : Nat) (s : DState C) :
    (drainWrite run fd fuel s).1.watch.length = s.watch.length := by
  rw [drainWrite_pure hpure]
  simp [setWriteQ]

theorem afterReadDrain_len (fd : Nat) (s : DState C) :
    (afterReadDrain fd s).watch.length = s.watch.length := by
  unfold afterReadDrain
  by_cases h1 : (getWatch s fd).read_cb.isEmpty
  · by_cases h2 : ((getWatch s fd).write_cb.isEmpty && (getWatch s fd).except_cb.isNone) = true
    · simp [h1, h2]
    · simp [h1, h2]
  · simp [h1]

theorem afterWriteDrain_len (fd : Nat) (s : DState C) :
    (afterWriteDrain fd s).watch.length = s.watch.length := by
  unfold afterWriteDrain
  by_cases h1 : (getWatch s fd).write_cb.isEmpty
  · by_cases h2 : ((getWatch s fd).read_cb.isEmpty && (getWatch s fd).except_cb.isNone) = true
    · simp [h1, h2]
    · simp [h1, h2]
  · simp [h1]

theorem processRead_len {run : C → DState C → DState C × Bool} {retc : C → Bool}
    (hpure : ∀ c s1, run c s1 = (s1, retc c)) (fuel fd : Nat) (s : DState C) :
    (processRead run fuel fd s).1.watch.length = s.watch.length := by
  unfold processRead
  by_cases h : (getWatch s fd).read_cb.isEmpty
  · simp [h]
  · simp only [h, Bool.false_eq_true, if_false]
    rw [afterReadDrain_len, drainRead_len hpure]

theorem processWrite_len {run : C → DState C → DState C × Bool} {retc : C → Bool}
    (hpure : ∀ c s1, run c s1 = (s1, retc c)) (fuel fd : Nat) (s : DState C) :
    (processWrite run fuel fd s).1.watch.length = s.watch.length := by
  unfold processWrite
  by_cases h : (getWatch s fd).write_cb.isEmpty
  · simp [h]
  · simp only [h, Bool.false_eq_true, if_false]
    rw [afterWriteDrain_len, drainWrite_len hpure]

theorem processExc_len {run : C → DState C → DState C × Bool} {retc : C → Bool}
    (hpure : ∀ c s1, run c s1 = (s1, retc c)) (fd : Nat) (s : DState C) :
    (processExc run fd s).1.watch.length = s.watch.length := by
  unfold processExc
  rcases h : (getWatch s fd).except_cb with _ | c
  · rfl
  · by_cases hb : (run c s).2 = true
    · simp only [hb, if_true]
      rw [hpure]
    · simp only [hb, Bool.false_eq_true, if_false]
      rw [hpure]

theorem processFd_len {run : C → DState C → DState C × Bool} {retc : C → Bool}
    (hpure : ∀ c s1, run c s1 = (s1, retc c)) (fuel : Nat) (ready : Ready)
    (fd : Nat) (s : DState C) :
    (processFd run fuel ready fd s).1.watch.length = s.watch.length := by
  unfold processFd
  by_cases ha : (getWatch s fd).active = true
  · simp only [ha, if_true]
    have h1 : ∀ t : DState C,
        (if ready.inRead fd then processRead run fuel fd t else (t, [])).1.watch.length
          = t.watch.length := by
      intro t
      by_cases hr : ready.inRead fd = true
      · simp only [hr, if_true]; exact processRead_len hpure fuel fd t
      · simp only [hr, Bool.false_eq_true, if_false]
    have h2 : ∀ t : DState C,
        (if ready.inWrite fd then processWrite run fuel fd t else (t, [])).1.watch.length
          = t.watch.length := by
      intro t
      by_cases hw : ready.inWrite fd = true
      · simp only [hw, if_true]; exact processWrite_len hpure fuel fd t
      · simp only [hw, Bool.false_eq_true, if_false]
    have h3 : ∀ t : DState C,
        (if ready.inExc fd then processExc run fd t else (t, [])).1.watch.length
          = t.watch.length := by
      intro t
      by_cases hx : ready.inExc fd = true
      · simp only [hx, if_true]; exact processExc_len hpure fd t
      · simp only [hx, Bool.false_eq_true, if_false]
    rw [h3, h2, h1]
  · simp only [ha, Bool.false_eq_true, if_false]

theorem loopFds_len {run : C → DState C → DState C × Bool} {retc : C → Bool}
    (hpure : ∀ c s1, run c s1 = (s1, retc c)) (fuelD : Nat) (ready : Ready) :
    ∀ (fuel lo : Nat) (s : DState C),
    (loopFds run fuelD ready fuel lo s).1.watch.length = s.watch.length := by
  intro fuel
  induction fuel with
  | zero => intro lo s; rfl
  | succ fuel ih =>
    intro lo s
    by_cases h : lo < s.watch.length
    · simp only [loopFds, h, if_true]
      rw [ih, processFd_len hpure]
    · simp only [loopFds, h, if_false]

theorem loopFds_frame_lt {run : C → DState C → DState C × Bool} {fd2 : Nat}
    (hrun : PreservesFd run fd2) (fuelD : Nat) (ready : Ready) :
    ∀ (fuel lo : Nat) (s : DState C), fd2 < lo →
    SameAt s (loopFds run fuelD ready fuel lo s).1 fd2 := by
  intro fuel
  induction fuel with
  | zero => intro lo s _; exact sameAt_refl s fd2
  | succ fuel ih =>
    intro lo s hlt
    by_cases h : lo < s.watch.length
    · simp only [loopFds, h, if_true]
      have hne : lo ≠ fd2 := fun he => absurd (he ▸ hlt) (Nat.lt_irrefl lo)
      exact sameAt_trans (processFd_frame hrun hne fuelD ready s)
        (ih (lo + 1) _ (Nat.lt_succ_of_lt hlt))
    · simp only [loopFds, h, if_false]
      exact sameAt_refl s fd2

theorem loopFds_frame_cond {run : C → DState C → DState C × Bool}
    {ready : Ready} {fd2 : Nat} (hrun : PreservesFd run fd2) (fuelD : Nat) :
    ∀ (fuel lo : Nat) (s : DState C),
    ((getWatch s fd2).active = false ∨
      (ready.inRead fd2 = false ∧ ready.inWrite fd2 = false ∧ ready.inExc fd2 = false)) →
    SameAt s (loopFds run fuelD ready fuel lo s).1 fd2 := by
  intro fuel
  induction fuel with
  | zero => intro lo s _; exact sameAt_refl s fd2
  | succ fuel ih =>
    intro lo s hcond
    by_cases h : lo < s.watch.length
    · simp only [loopFds, h, if_true]
      by_cases hne : lo = fd2
      · subst hne
        rw [processFd_self_id fuelD hcond]
        exact ih (lo + 1) s hcond
      · have hfr : SameAt s (processFd run fuelD ready lo s).1 fd2 :=
          processFd_frame hrun hne fuelD ready s
        have hcond' : (getWatch (processFd run fuelD ready lo s).1 fd2).active = false ∨
            (ready.inRead fd2 = false ∧ ready.inWrite fd2 = false ∧ ready.inExc fd2 = false) := by
          rcases hcond with hc | hc
          · exact Or.inl (by rw [getWatch_of_sameAt hfr]; exact hc)
          · exact Or.inr hc
        exact sameAt_trans hfr (ih (lo + 1) _ hcond')
    · simp only [loopFds, h, if_false]
      exact sameAt_refl s fd2

theorem drainRead_events {run : C → DState C → DState C × Bool} (fd : Nat) :
    ∀ (fuel : Nat) (s : DState C), ∀ e ∈ (drainRead run fd fuel s).2,
    e.fd = fd ∧ e.kind = 0 := by
  intro fuel
  induction fuel with
  | zero => intro s e he; simp [drainRead] at he
  | succ fuel ih =>
    intro s e he
    rcases h : (getWatch s fd).read_cb with _ | ⟨c, rest⟩
    · rw [drainRead, h] at he
      simp at he
    · rw [drainRead, h] at he
      by_cases hb : (run c s).2 = true
      · simp only [hb, if_true, List.mem_singleton] at he
        subst he; exact ⟨rfl, rfl⟩
      · simp only [hb, Bool.false_eq_true, if_false, List.mem_cons] at he
        rcases he with he | he
        · subst he; exact ⟨rfl, rfl⟩
        · exact ih _ e he

theorem drainWrite_events {run : C → DState C → DState C × Bool} (fd : Nat) :
    ∀ (fuel : Nat) (s : DState C), ∀ e ∈ (drainWrite run fd fuel s).2,
    e.fd = fd ∧ e.kind = 1 := by
  intro fuel
  induction fuel with
  | zero => intro s e he; simp [drainWrite] at he
  | succ fuel ih =>
    intro s e he
    rcases h : (getWatch s fd).write_cb with _ | ⟨c, rest⟩
    · rw [drainWrite, h] at he
      simp at he
    · rw [drainWrite, h] at he
      by_cases hb : (run c s).2 = true
      · simp only [hb, if_true, List.mem_singleton] at he
        subst he; exact ⟨rfl, rfl⟩
      · simp only [hb, Bool.false_eq_true, if_false, List.mem_cons] at he
        rcases he with he | he
        · subst he; exact ⟨rfl, rfl⟩
        · exact ih _ e he

theorem processRead_events {run : C → DState C → DState C × Bool}
    (fuel fd : Nat) (s : DState C) :
    ∀ e ∈ (processRead run fuel fd s).2, e.fd = fd ∧ e.kind = 0 := by
  intro e he
  unfold processRead at he
  by_cases h : (getWatch s fd).read_cb.isEmpty
  · simp [h] at he
  · simp only [h, Bool.false_eq_true, if_false] at he
    exact drainRead_events fd fuel s e he

theorem processWrite_events {run : C → DState C → DState C × Bool}
    (fuel fd : Nat) (s : DState C) :
    ∀ e ∈ (processWrite run fuel fd s).2, e.fd = fd ∧ e.kind = 1 := by
  intro e he
  unfold processWrite at he
  by_cases h : (getWatch s fd).write_cb.isEmpty
  · simp [h] at he
  · simp only [h, Bool.false_eq_true, if_false] at he
    exact drainWrite_events fd fuel s e he

theorem processExc_events {run : C → DState C → DState C × Bool}
    (fd : Nat) (s : DState C) :
    ∀ e ∈ (processExc run fd s).2, e.fd = fd ∧ e.kind = 2 := by
  intro e he
  unfold processExc at he
  rcases h : (getWatch s fd).except_cb with _ | c
  · rw [h] at he
    simp at he
    subst he; exact ⟨rfl, rfl⟩
  · rw [h] at he
    by_cases hb : (run c s).2 = true
    · simp only [hb, if_true, List.mem_singleton] at he
      subst he; exact ⟨rfl, rfl⟩
    · simp only [hb, Bool.false_eq_true, if_false, List.mem_singleton] at he
      subst he; exact ⟨rfl, rfl⟩

theorem processFd_trace {run : C → DState C → DState C × Bool}
    (fuel : Nat) (ready : Ready) (fd : Nat) (s : DState C) :
    (processFd run fuel ready fd s).2 =
      (if (getWatch s fd).active then
        (if ready.inRead fd then processRead run fuel fd s else (s, [])).2 ++
        (if ready.inWrite fd then processWrite run fuel fd
          (if ready.inRead fd then processRead run fuel fd s else (s, [])).1 else
            ((if ready.inRead fd then processRead run fuel fd s else (s, [])).1, [])).2 ++
        (if ready.inExc fd then processExc run fd
          (if ready.inWrite fd then processWrite run fuel fd
            (if ready.inRead fd then processRead run fuel fd s else (s, [])).1 else
              ((if ready.inRead fd then processRead run fuel fd s else (s, [])).1, [])).1 else
          ((if ready.inWrite fd then processWrite run fuel fd
            (if ready.inRead fd then processRead run fuel fd s else (s, [])).1 else
              ((if ready.inRead fd then processRead run fuel fd s else (s, [])).1, [])).1, [])).2
      else []) := by
  by_cases ha : (getWatch s fd).active = true
  · simp only [processFd, ha, if_true]
  · simp only [processFd, ha, Bool.false_eq_true, if_false]

theorem processFd_events {run : C → DState C → DState C × Bool}
    (fuel : Nat) (ready : Ready) (fd : Nat) (s : DState C) :
    ∀ e ∈ (processFd run fuel ready fd s).2, e.fd = fd ∧ e.kind ≤ 2 := by
  intro e he
  rw [processFd_trace] at he
  by_cases ha : (getWatch s fd).active = true
  · simp only [ha, if_true, List.mem_append] at he
    rcases he with (he | he) | he
    · by_cases hr : ready.inRead fd = true
      · simp only [hr, if_true] at he
        rcases processRead_events fuel fd s e he with ⟨h1, h2⟩
        exact ⟨h1, by omega⟩
      · simp only [hr, Bool.false_eq_true, if_false] at he
        simp at he
    · by_cases hw : ready.inWrite fd = true
      · simp only [hw, if_true] at he
        rcases processWrite_events fuel fd _ e he with ⟨h1, h2⟩
        exact ⟨h1, by omega⟩
      · simp only [hw, Bool.false_eq_true, if_false] at he
        simp at he
    · by_cases hx : ready.inExc fd = true
      · simp only [hx, if_true] at he
        rcases processExc_events fd _ e he with ⟨h1, h2⟩
        exact ⟨h1, by omega⟩
      · simp only [hx, Bool.false_eq_true, if_false] at he
        simp at he
  · simp only [ha, Bool.false_eq_true, if_false] at he
    simp at he

theorem processFd_events_sorted {run : C → DState C → DState C × Bool}
    (fuel : Nat) (ready : Ready) (fd : Nat) (s : DState C) :
    ((processFd run fuel ready fd s).2).Pairwise
      (fun a b => eventKey a ≤ eventKey b) := by
  rw [processFd_trace]
  by_cases ha : (getWatch s fd).active = true
  · simp only [ha, if_true]
    have hkind : ∀ (l : List (Event C)) (k : Nat),
        (∀ e ∈ l, e.fd = fd ∧ e.kind = k) →
        l.Pairwise (fun a b => eventKey a ≤ eventKey b) := by
      intro l k hl
      refine List.pairwise_of_forall_mem_list ?_
      intro a hal b hbl
      rcases hl a hal with ⟨ha1, ha2⟩
      rcases hl b hbl with ⟨hb1, hb2⟩
      simp [eventKey, ha1, ha2, hb1, hb2]
    have hA : ∀ e ∈ (if ready.inRead fd then processRead run fuel fd s else (s, [])).2,
        e.fd = fd ∧ e.kind = 0 := by
      by_cases hr : ready.inRead fd = true
      · simp only [hr, if_true]
        exact processRead_events fuel fd s
      · simp only [hr, Bool.false_eq_true, if_false]
        intro e he; simp at he
    have hB : ∀ e ∈ (if ready.inWrite fd then processWrite run fuel fd
          (if ready.inRead fd then processRead run fuel fd s else (s, [])).1 else
            ((if ready.inRead fd then processRead run fuel fd s else (s, [])).1, [])).2,
        e.fd = fd ∧ e.kind = 1 := by
      by_cases hw : ready.inWrite fd = true
      · simp only [hw, if_true]
        exact processWrite_events fuel fd _
      · simp only [hw, Bool.false_eq_true, if_false]
        intro e he; simp at he
    have hC : ∀ e ∈ (if ready.inExc fd then processExc run fd
          (if ready.inWrite fd then processWrite run fuel fd
            (if ready.inRead fd then processRead run fuel fd s else (s, [])).1 else
              ((if ready.inRead fd then processRead run fuel fd s else (s, [])).1, [])).1 else
          ((if ready.inWrite fd then processWrite run fuel fd
            (if ready.inRead fd then processRead run fuel fd s else (s, [])).1 else
              ((if ready.inRead fd then processRead run fuel fd s else (s, [])).1, [])).1, [])).2,
        e.fd = fd ∧ e.kind = 2 := by
      by_cases hx : ready.inExc fd = true
      · simp only [hx, if_true]
        exact processExc_events fd _
      · simp only [hx, Bool.false_eq_true, if_false]
        intro e he; simp at he
    rw [List.pairwise_append]
    refine ⟨?_, ?_, ?_⟩
    · rw [List.pairwise_append]
      refine ⟨hkind _ 0 hA, hkind _ 1 hB, ?_⟩
      intro a hal b hbl
      rcases hA a hal with ⟨ha1, ha2⟩
      rcases hB b hbl with ⟨hb1, hb2⟩
      simp [eventKey, ha1, ha2, hb1, hb2]
    · exact hkind _ 2 hC
    · intro a hal b hbl
      rcases hC b hbl with ⟨hb1, hb2⟩
      rcases List.mem_append.mp hal with hal | hal
      · rcases hA a hal with ⟨ha1, ha2⟩
        simp [eventKey, ha1, ha2, hb1, hb2]
      · rcases hB a hal with ⟨ha1, ha2⟩
        simp [eventKey, ha1, ha2, hb1, hb2]
  · simp only [ha, Bool.false_eq_true, if_false]
    exact List.Pairwise.nil

theorem loopFds_events_lb {run : C → DState C → DState C × Bool}
    (fuelD : Nat) (ready : Ready) :
    ∀ (fuel lo : Nat) (s : DState C), ∀ e ∈ (loopFds run fuelD ready fuel lo s).2,
    lo ≤ e.fd ∧ e.kind ≤ 2 := by
  intro fuel
  induction fuel with
  | zero => intro lo s e he; simp [loopFds] at he
  | succ fuel ih =>
    intro lo s e he
    by_cases h : lo < s.watch.length
    · simp only [loopFds, h, if_true, List.mem_append] at he
      rcases he with he | he
      · rcases processFd_events fuelD ready lo s e he with ⟨h1, h2⟩
        exact ⟨Nat.le_of_eq h1.symm, h2⟩
      · rcases ih (lo + 1) _ e he with ⟨h1, h2⟩
        exact ⟨Nat.le_of_succ_le h1, h2⟩
    · simp only [loopFds, h, if_false] at he
      simp at he

theorem loopFds_events_sorted {run : C → DState C → DState C × Bool}
    (fuelD : Nat) (ready : Ready) :
    ∀ (fuel lo : Nat) (s : DState C),
    ((loopFds run fuelD ready fuel lo s).2).Pairwise
      (fun a b => eventKey a ≤ eventKey b) := by
  intro fuel
  induction fuel with
  | zero => intro lo s; simp [loopFds]
  | succ fuel ih =>
    intro lo s
    by_cases h : lo < s.watch.length
    · simp only [loopFds, h, if_true]
      rw [List.pairwise_append]
      refine ⟨processFd_events_sorted fuelD ready lo s, ih (lo + 1) _, ?_⟩
      intro a hal b hbl
      rcases processFd_events fuelD ready lo s a hal with ⟨ha1, ha2⟩
      rcases loopFds_events_lb fuelD ready fuel (lo + 1) _ b hbl with ⟨hb1, hb2⟩
      simp only [eventKey, ha1]
      omega
    · simp only [loopFds, h, if_false]
      exact List.Pairwise.nil

theorem loopFds_split {run : C → DState C → DState C × Bool} {retc : C → Bool}
    (hpure : ∀ c s1, run c s1 = (s1, retc c)) (fuelD : Nat) (ready : Ready) (fd2 : Nat) :
    ∀ (fuel lo : Nat) (s : DState C), lo ≤ fd2 → fd2 < s.watch.length →
      s.watch.length ≤ fuel + lo →
    ∃ (s1 : DState C) (n1 : Nat) (t1 : List (Event C)),
      SameAt s s1 fd2 ∧ s1.watch.length = s.watch.length ∧
      (∀ e ∈ t1, e.fd < fd2) ∧
      loopFds run fuelD ready fuel lo s =
        ((loopFds run fuelD ready n1 (fd2 + 1) (processFd run fuelD ready fd2 s1).1).1,
         t1 ++ (processFd run fuelD ready fd2 s1).2 ++
           (loopFds run fuelD ready n1 (fd2 + 1) (processFd run fuelD ready fd2 s1).1).2) := by
  intro fuel
  induction fuel with
  | zero =>
    intro lo s hle hlt hlen
    omega
  | succ fuel ih =>
    intro lo s hle hlt hlen
    have hlo : lo < s.watch.length := Nat.lt_of_le_of_lt hle hlt
    by_cases heq : lo = fd2
    · subst heq
      refine ⟨s, fuel, [], sameAt_refl s lo, rfl, by simp, ?_⟩
      simp only [loopFds, hlo, if_true, List.nil_append]
    · have hlt' : lo < fd2 := Nat.lt_of_le_of_ne hle heq
      have hlen0 : (processFd run fuelD ready lo s).1.watch.length = s.watch.length :=
        processFd_len hpure fuelD ready lo s
      rcases ih (lo + 1) (processFd run fuelD ready lo s).1 hlt'
        (by rw [hlen0]; exact hlt) (by omega) with
        ⟨s1, n1, t1', hsame, hlen1, hev, hrec⟩
      refine ⟨s1, n1, (processFd run fuelD ready lo s).2 ++ t1', ?_, ?_, ?_, ?_⟩
      · exact sameAt_trans
          (processFd_frame (pure_preservesFd hpure fd2) heq fuelD ready s) hsame
      · exact hlen1.trans hlen0
      · intro e he
        rcases List.mem_append.mp he with he | he
        · rcases processFd_events fuelD ready lo s e he with ⟨h1, _⟩
          rw [h1]; exact hlt'
        · exact hev e he
      · simp only [loopFds, hlo, if_true]
        rw [hrec]
        simp [List.append_assoc]

theorem afterReadDrain_of_ne {fd : Nat} {s : DState C}
    (h : (getWatch s fd).read_cb.isEmpty = false) : afterReadDrain fd s = s := by
  simp [afterReadDrain, h]

theorem afterReadDrain_of_mixed {fd : Nat} {s : DState C}
    (h : (getWatch s fd).read_cb.isEmpty = true)
    (h2 : ((getWatch s fd).write_cb.isEmpty && (getWatch s fd).except_cb.isNone) = false) :
    afterReadDrain fd s = { s with select := s.select.clearRead fd } := by
  simp [afterReadDrain, h, h2]

theorem afterReadDrain_of_full {fd : Nat} {s : DState C}
    (h : (getWatch s fd).read_cb.isEmpty = true)
    (h2 : ((getWatch s fd).write_cb.isEmpty && (getWatch s fd).except_cb.isNone) = true) :
    afterReadDrain fd s =
      setWatch { s with select := ((s.select.clearRead fd).clearWrite fd).clearExc fd }
        fd { getWatch s fd with active := false } := by
  simp [afterReadDrain, h, h2]

theorem afterWriteDrain_of_ne {fd : Nat} {s : DState C}
    (h : (getWatch s fd).write_cb.isEmpty = false) : afterWriteDrain fd s = s := by
  simp [afterWriteDrain, h]

theorem afterWriteDrain_of_mixed {fd : Nat} {s : DState C}
    (h : (getWatch s fd).write_cb.isEmpty = true)
    (h2 : ((getWatch s fd).read_cb.isEmpty && (getWatch s fd).except_cb.isNone) = false) :
    afterWriteDrain fd s = { s with select := s.select.clearWrite fd } := by
  simp [afterWriteDrain, h, h2]

theorem afterWriteDrain_of_full {fd : Nat} {s : DState C}
    (h : (getWatch s fd).write_cb.isEmpty = true)
    (h2 : ((getWatch s fd).read_cb.isEmpty && (getWatch s fd).except_cb.isNone) = true) :
    afterWriteDrain fd s =
      setWatch { s with select := ((s.select.clearWrite fd).clearRead fd).clearExc fd }
        fd { getWatch s fd with active := false } := by
  simp [afterWriteDrain, h, h2]

theorem processRead_of_empty {run : C → DState C → DState C × Bool} {fd : Nat}
    {s : DState C} (fuel : Nat) (h : (getWatch s fd).read_cb.isEmpty = true) :
    processRead run fuel fd s = ({ s with select := s.select.clearRead fd }, []) := by
  simp [processRead, h]

theorem processWrite_of_empty {run : C → DState C → DState C × Bool} {fd : Nat}
    {s : DState C} (fuel : Nat) (h : (getWatch s fd).write_cb.isEmpty = true) :
    processWrite run fuel fd s = ({ s with select := s.select.clearWrite fd }, []) := by
  simp [processWrite, h]

theorem processExc_of_none {run : C → DState C → DState C × Bool} {fd : Nat}
    {s : DState C} (h : (getWatch s fd).except_cb = none) :
    processExc run fd s = (s, [⟨fd, 2, none⟩]) := by
  simp [processExc, h]

theorem processExc_pure_cases {run : C → DState C → DState C × Bool} {retc : C → Bool}
    (hpure : ∀ c s1, run c s1 = (s1, retc c)) (fd : Nat) (s : DState C) :
    (processExc run fd s).1 = s ∨
    (processExc run fd s).1 = { s with select := s.select.clearExc fd } := by
  unfold processExc
  rcases h : (getWatch s fd).except_cb with _ | c
  · exact Or.inl rfl
  · by_cases hb : (run c s).2 = true
    · simp only [hb, if_true]
      rw [hpure]
      exact Or.inl rfl
    · simp only [hb, Bool.false_eq_true, if_false]
      rw [hpure]
      exact Or.inr rfl

theorem getWatch_clearExc (s : DState C) (fd fd' : Nat) :
    getWatch { s with select := s.select.clearExc fd } fd' = getWatch s fd' := rfl

theorem chainStep_spec {retc : C → Bool} :
    ∀ (as : List C) (fuel : Nat) (b : C) (bs : List C),
    (∀ a ∈ as, retc a = false) → retc b = true → as.length < fuel →
    chainStep retc fuel (as ++ b :: bs) = (as ++ [b], b :: bs) := by
  intro as
  induction as with
  | nil =>
    intro fuel b bs _ hb hfuel
    cases fuel with
    | zero => omega
    | succ fuel => simp [chainStep, hb]
  | cons a as ih =>
    intro fuel b bs has hb hfuel
    cases fuel with
    | zero => omega
    | succ fuel =>
      have ha : retc a = false := has a (List.mem_cons_self a as)
      have has' : ∀ x ∈ as, retc x = false := fun x hx => has x (List.mem_cons_of_mem a hx)
      simp only [List.cons_append, chainStep, ha, Bool.false_eq_true, if_false,
        List.append_eq]
      rw [ih fuel b bs has' hb (by simpa using Nat.lt_of_succ_lt_succ hfuel)]

theorem setWatch_select_setWatch (s : DState C) (fd : Nat) (w1 w2 : Watch C)
    (sel : Select) :
    setWatch { setWatch s fd w1 with select := sel } fd w2 =
      setWatch { s with select := sel } fd w2 := by
  simp [setWatch, List.set_set]

theorem processRead_pure_ne {run : C → DState C → DState C × Bool} {retc : C → Bool}
    (hpure : ∀ c s1, run c s1 = (s1, retc c)) {fd : Nat} {s : DState C}
    (fuel : Nat) (he : (getWatch s fd).read_cb.isEmpty = false) :
    processRead run fuel fd s =
      (afterReadDrain fd (setReadQ s fd (chainStep retc fuel (getWatch s fd).read_cb).2),
       ((chainStep retc fuel (getWatch s fd).read_cb).1).map fun c => ⟨fd, 0, some c⟩) := by
  unfold processRead
  simp only [he, Bool.false_eq_true, if_false]
  rw [drainRead_pure hpure]

theorem processWrite_pure_ne {run : C → DState C → DState C × Bool} {retc : C → Bool}
    (hpure : ∀ c s1, run c s1 = (s1, retc c)) {fd : Nat} {s : DState C}
    (fuel : Nat) (he : (getWatch s fd).write_cb.isEmpty = false) :
    processWrite run fuel fd s =
      (afterWriteDrain fd (setWriteQ s fd (chainStep retc fuel (getWatch s fd).write_cb).2),
       ((chainStep retc fuel (getWatch s fd).write_cb).1).map fun c => ⟨fd, 1, some c⟩) := by
  unfold processWrite
  simp only [he, Bool.false_eq_true, if_false]
  rw [drainWrite_pure hpure]

theorem processRead_pure_summary {run : C → DState C → DState C × Bool} {retc : C → Bool}
    (hpure : ∀ c s1, run c s1 = (s1, retc c)) (fuel fd : Nat) (s : DState C) :
    ((getWatch s fd).read_cb.isEmpty = true ∧
      (processRead run fuel fd s).1 = { s with select := s.select.clearRead fd }) ∨
    ((getWatch s fd).read_cb.isEmpty = false ∧
      (chainStep retc fuel (getWatch s fd).read_cb).2 ≠ [] ∧
      (processRead run fuel fd s).1 =
        setReadQ s fd (chainStep retc fuel (getWatch s fd).read_cb).2) ∨
    ((getWatch s fd).read_cb.isEmpty = false ∧
      (chainStep retc fuel (getWatch s fd).read_cb).2 = [] ∧
      ((getWatch s fd).write_cb.isEmpty && (getWatch s fd).except_cb.isNone) = false ∧
      (processRead run fuel fd s).1 =
        setWatch { s with select := s.select.clearRead fd } fd
          { getWatch s fd with read_cb := [] }) ∨
    ((getWatch s fd).read_cb.isEmpty = false ∧
      (chainStep retc fuel (getWatch s fd).read_cb).2 = [] ∧
      ((getWatch s fd).write_cb.isEmpty && (getWatch s fd).except_cb.isNone) = true ∧
      (processRead run fuel fd s).1 =
        setWatch { s with select := ((s.select.clearRead fd).clearWrite fd).clearExc fd }
          fd { getWatch s fd with read_cb := [], active := false }) := by
  by_cases he : (getWatch s fd).read_cb.isEmpty = true
  · exact Or.inl ⟨he, by rw [processRead_of_empty fuel he]⟩
  · have he' : (getWatch s fd).read_cb.isEmpty = false := by
      cases h : (getWatch s fd).read_cb.isEmpty
      · rfl
      · exact absurd h he
    have hlt : fd < s.watch.length :=
      lt_of_read_cb_ne (List.isEmpty_eq_false.mp he')
    have hA : getWatch (setReadQ s fd (chainStep retc fuel (getWatch s fd).read_cb).2) fd
        = { getWatch s fd with read_cb := (chainStep retc fuel (getWatch s fd).read_cb).2 } :=
      getWatch_setWatch_self _ hlt
    rw [processRead_pure_ne hpure fuel he']
    by_cases hq : (chainStep retc fuel (getWatch s fd).read_cb).2 = []
    · by_cases hoc : ((getWatch s fd).write_cb.isEmpty && (getWatch s fd).except_cb.isNone) = true
      · refine Or.inr (Or.inr (Or.inr ⟨he', hq, hoc, ?_⟩))
        rw [afterReadDrain_of_full (by rw [hA, hq]; rfl) (by rw [hA]; exact hoc)]
        rw [hA, hq]
        simp only [setReadQ, select_setWatch]
        rw [setWatch_select_setWatch]
      · have hoc' : ((getWatch s fd).write_cb.isEmpty && (getWatch s fd).except_cb.isNone) = false := by
          cases h : ((getWatch s fd).write_cb.isEmpty && (getWatch s fd).except_cb.isNone)
          · rfl
          · exact absurd h hoc
        refine Or.inr (Or.inr (Or.inl ⟨he', hq, hoc', ?_⟩))
        rw [afterReadDrain_of_mixed (by rw [hA, hq]; rfl) (by rw [hA]; exact hoc')]
        rw [hq]
        rfl
    · refine Or.inr (Or.inl ⟨he', hq, ?_⟩)
      rw [afterReadDrain_of_ne (by rw [hA]; simpa using hq)]

theorem processWrite_pure_summary {run : C → DState C → DState C × Bool} {retc : C → Bool}
    (hpure : ∀ c s1, run c s1 = (s1, retc c)) (fuel fd : Nat) (s : DState C) :
    ((getWatch s fd).write_cb.isEmpty = true ∧
      (processWrite run fuel fd s).1 = { s with select := s.select.clearWrite fd }) ∨
    ((getWatch s fd).write_cb.isEmpty = false ∧
      (chainStep retc fuel (getWatch s fd).write_cb).2 ≠ [] ∧
      (processWrite run fuel fd s).1 =
        setWriteQ s fd (chainStep retc fuel (getWatch s fd).write_cb).2) ∨
    ((getWatch s fd).write_cb.isEmpty = false ∧
      (chainStep retc fuel (getWatch s fd).write_cb).2 = [] ∧
      ((getWatch s fd).read_cb.isEmpty && (getWatch s fd).except_cb.isNone) = false ∧
      (processWrite run fuel fd s).1 =
        setWatch { s with select := s.select.clearWrite fd } fd
          { getWatch s fd with write_cb := [] }) ∨
    ((getWatch s fd).write_cb.isEmpty = false ∧
      (chainStep retc fuel (getWatch s fd).write_cb).2 = [] ∧
      ((getWatch s fd).read_cb.isEmpty && (getWatch s fd).except_cb.isNone) = true ∧
      (processWrite run fuel fd s).1 =
        setWatch { s with select := ((s.select.clearWrite fd).clearRead fd).clearExc fd }
          fd { getWatch s fd with write_cb := [], active := false }) := by
  by_cases he : (getWatch s fd).write_cb.isEmpty = true
  · exact Or.inl ⟨he, by rw [processWrite_of_empty fuel he]⟩
  · have he' : (getWatch s fd).write_cb.isEmpty = false := by
      cases h : (getWatch s fd).write_cb.isEmpty
      · rfl
      · exact absurd h he
    have hlt : fd < s.watch.length :=
      lt_of_write_cb_ne (List.isEmpty_eq_false.mp he')
    have hA : getWatch (setWriteQ s fd (chainStep retc fuel (getWatch s fd).write_cb).2) fd
        = { getWatch s fd with write_cb := (chainStep retc fuel (getWatch s fd).write_cb).2 } :=
      getWatch_setWatch_self _ hlt
    rw [processWrite_pure_ne hpure fuel he']
    by_cases hq : (chainStep retc fuel (getWatch s fd).write_cb).2 = []
    · by_cases hoc : ((getWatch s fd).read_cb.isEmpty && (getWatch s fd).except_cb.isNone) = true
      · refine Or.inr (Or.inr (Or.inr ⟨he', hq, hoc, ?_⟩))
        rw [afterWriteDrain_of_full (by rw [hA, hq]; rfl) (by rw [hA]; exact hoc)]
        rw [hA, hq]
        simp only [setWriteQ, select_setWatch]
        rw [setWatch_select_setWatch]
      · have hoc' : ((getWatch s fd).read_cb.isEmpty && (getWatch s fd).except_cb.isNone) = false := by
          cases h : ((getWatch s fd).read_cb.isEmpty && (getWatch s fd).except_cb.isNone)
          · rfl
          · exact absurd h hoc
        refine Or.inr (Or.inr (Or.inl ⟨he', hq, hoc', ?_⟩))
        rw [afterWriteDrain_of_mixed (by rw [hA, hq]; rfl) (by rw [hA]; exact hoc')]
        rw [hq]
        rfl
    · refine Or.inr (Or.inl ⟨he', hq, ?_⟩)
      rw [afterWriteDrain_of_ne (by rw [hA]; simpa using hq)]

theorem processFd_state {run : C → DState C → DState C × Bool}
    (fuel : Nat) (ready : Ready) (fd : Nat) (s : DState C) :
    (processFd run fuel ready fd s).1 =
      (if (getWatch s fd).active then
        (if ready.inExc fd then
          (processExc run fd
            (if ready.inWrite fd then
              processWrite run fuel fd
                (if ready.inRead fd then processRead run fuel fd s else (s, [])).1
            else ((if ready.inRead fd then processRead run fuel fd s else (s, [])).1, [])).1).1
        else
          (if ready.inWrite fd then
            processWrite run fuel fd
              (if ready.inRead fd then processRead run fuel fd s else (s, [])).1
          else ((if ready.inRead fd then processRead run fuel fd s else (s, [])).1, [])).1)
      else s) := by
  by_cases ha : (getWatch s fd).active = true
  · simp only [processFd, ha, if_true]
    by_cases hx : ready.inExc fd = true
    · simp only [hx, if_true]
    · simp only [hx, Bool.false_eq_true, if_false]
  · simp only [processFd, ha, Bool.false_eq_true, if_false]

theorem getWatch_setReadQ_self {s : DState C} {fd : Nat} (l : List C)
    (h : fd < s.watch.length) :
    getWatch (setReadQ s fd l) fd = { getWatch s fd with read_cb := l } :=
  getWatch_setWatch_self _ h

theorem getWatch_setWriteQ_self {s : DState C} {fd : Nat} (l : List C)
    (h : fd < s.watch.length) :
    getWatch (setWriteQ s fd l) fd = { getWatch s fd with write_cb := l } :=
  getWatch_setWatch_self _ h

@[simp] theorem select_setReadQ (s : DState C) (fd : Nat) (l : List C) :
    (setReadQ s fd l).select = s.select := rfl

@[simp] theorem select_setWriteQ (s : DState C) (fd : Nat) (l : List C) :
    (setWriteQ s fd l).select = s.select := rfl

theorem getWatch_setWatch_select_self {s : DState C} {fd : Nat} (sel : Select)
    (w : Watch C) (h : fd < s.watch.length) :
    getWatch (setWatch { s with select := sel } fd w) fd = w :=
  getWatch_setWatch_self w h

theorem processRead_invAt {run : C → DState C → DState C × Bool} {retc : C → Bool}
    (hpure : ∀ c s1, run c s1 = (s1, retc c)) (fuel fd : Nat) (s : DState C)
    (hinv : InvRWAt s fd) : InvRWAt (processRead run fuel fd s).1 fd := by
  rcases processRead_pure_summary hpure fuel fd s with
    ⟨he, hs⟩ | ⟨he, hq, hs⟩ | ⟨he, hq, hoc, hs⟩ | ⟨he, hq, hoc, hs⟩
  · rw [hs]
    intro hact
    have h0 := hinv hact
    exact ⟨by simp [he], by simpa using h0.2⟩
  · have hlt : fd < s.watch.length := lt_of_read_cb_ne (List.isEmpty_eq_false.mp he)
    rw [hs]
    intro hact
    rw [getWatch_setReadQ_self _ hlt] at hact
    have h0 := hinv (by simpa using hact)
    constructor
    · rw [getWatch_setReadQ_self _ hlt]
      simp only [select_setReadQ]
      rw [h0.1, he]
      simp [List.isEmpty_eq_false.mpr hq]
    · rw [getWatch_setReadQ_self _ hlt]
      simp only [select_setReadQ]
      simpa using h0.2
  · have hlt : fd < s.watch.length := lt_of_read_cb_ne (List.isEmpty_eq_false.mp he)
    rw [hs]
    intro hact
    rw [getWatch_setWatch_select_self _ _ hlt] at hact
    have h0 := hinv (by simpa using hact)
    constructor
    · rw [getWatch_setWatch_select_self _ _ hlt]
      simp
    · rw [getWatch_setWatch_select_self _ _ hlt]
      simpa using h0.2
  · have hlt : fd < s.watch.length := lt_of_read_cb_ne (List.isEmpty_eq_false.mp he)
    rw [hs]
    intro hact
    rw [getWatch_setWatch_select_self _ _ hlt] at hact
    simp at hact

theorem processWrite_invAt {run : C → DState C → DState C × Bool} {retc : C → Bool}
    (hpure : ∀ c s1, run c s1 = (s1, retc c)) (fuel fd : Nat) (s : DState C)
    (hinv : InvRWAt s fd) : InvRWAt (processWrite run fuel fd s).1 fd := by
  rcases processWrite_pure_summary hpure fuel fd s with
    ⟨he, hs⟩ | ⟨he, hq, hs⟩ | ⟨he, hq, hoc, hs⟩ | ⟨he, hq, hoc, hs⟩
  · rw [hs]
    intro hact
    have h0 := hinv hact
    exact ⟨by simpa using h0.1, by simp [he]⟩
  · have hlt : fd < s.watch.length := lt_of_write_cb_ne (List.isEmpty_eq_false.mp he)
    rw [hs]
    intro hact
    rw [getWatch_setWriteQ_self _ hlt] at hact
    have h0 := hinv (by simpa using hact)
    constructor
    · rw [getWatch_setWriteQ_self _ hlt]
      simp only [select_setWriteQ]
      simpa using h0.1
    · rw [getWatch_setWriteQ_self _ hlt]
      simp only [select_setWriteQ]
      rw [h0.2, he]
      simp [List.isEmpty_eq_false.mpr hq]
  · have hlt : fd < s.watch.length := lt_of_write_cb_ne (List.isEmpty_eq_false.mp he)
    rw [hs]
    intro hact
    rw [getWatch_setWatch_select_self _ _ hlt] at hact
    have h0 := hinv (by simpa using hact)
    constructor
    · rw [getWatch_setWatch_select_self _ _ hlt]
      simpa using h0.1
    · rw [getWatch_setWatch_select_self _ _ hlt]
      simp
  · have hlt : fd < s.watch.length := lt_of_write_cb_ne (List.isEmpty_eq_false.mp he)
    rw [hs]
    intro hact
    rw [getWatch_setWatch_select_self _ _ hlt] at hact
    simp at hact

theorem processExc_invAt {run : C → DState C → DState C × Bool} {retc : C → Bool}
    (hpure : ∀ c s1, run c s1 = (s1, retc c)) (fd : Nat) (s : DState C)
    (hinv : InvRWAt s fd) : InvRWAt (processExc run fd s).1 fd := by
  rcases processExc_pure_cases hpure fd s with hs | hs
  · rw [hs]; exact hinv
  · rw [hs]
    intro hact
    have h0 := hinv hact
    exact ⟨by simpa using h0.1, by simpa using h0.2⟩

theorem processFd_invAt {run : C → DState C → DState C × Bool} {retc : C → Bool}
    (hpure : ∀ c s1, run c s1 = (s1, retc c)) (fuel : Nat) (ready : Ready)
    (fd : Nat) (s : DState C) (hinv : InvRWAt s fd) :
    InvRWAt (processFd run fuel ready fd s).1 fd := by
  rw [processFd_state]
  by_cases ha : (getWatch s fd).active = true
  · simp only [ha, if_true]
    have h1 : InvRWAt (if ready.inRead fd then processRead run fuel fd s else (s, [])).1 fd := by
      by_cases hr : ready.inRead fd = true
      · simp only [hr, if_true]
        exact processRead_invAt hpure fuel fd s hinv
      · simp only [hr, Bool.false_eq_true, if_false]
        exact hinv
    have h2 : InvRWAt (if ready.inWrite fd then
        processWrite run fuel fd
          (if ready.inRead fd then processRead run fuel fd s else (s, [])).1
      else ((if ready.inRead fd then processRead run fuel fd s else (s, [])).1, [])).1 fd := by
      by_cases hw : ready.inWrite fd = true
      · simp only [hw, if_true]
        exact processWrite_invAt hpure fuel fd _ h1
      · simp only [hw, Bool.false_eq_true, if_false]
        exact h1
    by_cases hx : ready.inExc fd = true
    · simp only [hx, if_true]
      exact processExc_invAt hpure fd _ h2
    · simp only [hx, Bool.false_eq_true, if_false]
      exact h2
  · simp only [ha, Bool.false_eq_true, if_false]
    exact hinv

theorem invRWAt_of_sameAt {s s' : DState C} {fd : Nat}
    (h : SameAt s s' fd) (hinv : InvRWAt s fd) : InvRWAt s' fd := by
  intro hact
  rw [getWatch_of_sameAt h] at hact
  have h0 := hinv hact
  refine ⟨?_, ?_⟩
  · rw [h.2.1, getWatch_of_sameAt h]
    exact h0.1
  · rw [h.2.2.1, getWatch_of_sameAt h]
    exact h0.2

theorem loopFds_invAt {run : C → DState C → DState C × Bool} {retc : C → Bool}
    (hpure : ∀ c s1, run c s1 = (s1, retc c)) (fuelD : Nat) (ready : Ready) :
    ∀ (fuel lo : Nat) (s : DState C), (∀ fd, InvRWAt s fd) →
    ∀ fd, InvRWAt (loopFds run fuelD ready fuel lo s).1 fd := by
  intro fuel
  induction fuel with
  | zero => intro lo s hinv fd; exact hinv fd
  | succ fuel ih =>
    intro lo s hinv fd
    by_cases h : lo < s.watch.length
    · simp only [loopFds, h, if_true]
      refine ih (lo + 1) _ ?_ fd
      intro fd'
      by_cases hfd : fd' = lo
      · subst hfd
        exact processFd_invAt hpure fuelD ready fd' s (hinv fd')
      · exact invRWAt_of_sameAt
          (processFd_frame (pure_preservesFd hpure fd') (fun hc => hfd hc.symm) fuelD ready s)
          (hinv fd')
    · simp only [loopFds, h, if_false]
      exact hinv fd

theorem processRead_deact {run : C → DState C → DState C × Bool} {retc : C → Bool}
    (hpure : ∀ c s1, run c s1 = (s1, retc c)) (fuel fd : Nat) (s : DState C) :
    (getWatch (processRead run fuel fd s).1 fd).active = (getWatch s fd).active ∨
    (getWatch (processRead run fuel fd s).1 fd = default ∧
     (processRead run fuel fd s).1.select.read fd = false ∧
     (processRead run fuel fd s).1.select.write fd = false ∧
     (processRead run fuel fd s).1.select.exc fd = false) := by
  rcases processRead_pure_summary hpure fuel fd s with
    ⟨he, hs⟩ | ⟨he, hq, hs⟩ | ⟨he, hq, hoc, hs⟩ | ⟨he, hq, hoc, hs⟩
  · rw [hs]; exact Or.inl rfl
  · have hlt := lt_of_read_cb_ne (List.isEmpty_eq_false.mp he)
    rw [hs, getWatch_setReadQ_self _ hlt]
    exact Or.inl rfl
  · have hlt := lt_of_read_cb_ne (List.isEmpty_eq_false.mp he)
    rw [hs, getWatch_setWatch_select_self _ _ hlt]
    exact Or.inl rfl
  · have hlt := lt_of_read_cb_ne (List.isEmpty_eq_false.mp he)
    rw [Bool.and_eq_true] at hoc
    have h1 : (getWatch s fd).write_cb = [] := List.isEmpty_iff.mp hoc.1
    have h2 : (getWatch s fd).except_cb = none :=
      Option.isNone_iff_eq_none.mp hoc.2
    rw [hs, getWatch_setWatch_select_self _ _ hlt]
    refine Or.inr ⟨by simp [h1, h2, default], by simp, by simp, by simp⟩

theorem processWrite_deact {run : C → DState C → DState C × Bool} {retc : C → Bool}
    (hpure : ∀ c s1, run c s1 = (s1, retc c)) (fuel fd : Nat) (s : DState C) :
    (getWatch (processWrite run fuel fd s).1 fd).active = (getWatch s fd).active ∨
    (getWatch (processWrite run fuel fd s).1 fd = default ∧
     (processWrite run fuel fd s).1.select.read fd = false ∧
     (processWrite run fuel fd s).1.select.write fd = false ∧
     (processWrite run fuel fd s).1.select.exc fd = false) := by
  rcases processWrite_pure_summary hpure fuel fd s with
    ⟨he, hs⟩ | ⟨he, hq, hs⟩ | ⟨he, hq, hoc, hs⟩ | ⟨he, hq, hoc, hs⟩
  · rw [hs]; exact Or.inl rfl
  · have hlt := lt_of_write_cb_ne (List.isEmpty_eq_false.mp he)
    rw [hs, getWatch_setWriteQ_self _ hlt]
    exact Or.inl rfl
  · have hlt := lt_of_write_cb_ne (List.isEmpty_eq_false.mp he)
    rw [hs, getWatch_setWatch_select_self _ _ hlt]
    exact Or.inl rfl
  · have hlt := lt_of_write_cb_ne (List.isEmpty_eq_false.mp he)
    rw [Bool.and_eq_true] at hoc
    have h1 : (getWatch s fd).read_cb = [] := List.isEmpty_iff.mp hoc.1
    have h2 : (getWatch s fd).except_cb = none :=
      Option.isNone_iff_eq_none.mp hoc.2
    rw [hs, getWatch_setWatch_select_self _ _ hlt]
    refine Or.inr ⟨by simp [h1, h2, default], by simp, by simp, by simp⟩

theorem processExc_entry {run : C → DState C → DState C × Bool} {retc : C → Bool}
    (hpure : ∀ c s1, run c s1 = (s1, retc c)) (fd fd' : Nat) (s : DState C) :
    getWatch (processExc run fd s).1 fd' = getWatch s fd' := by
  rcases processExc_pure_cases hpure fd s with hs | hs
  · rw [hs]
  · rw [hs]; rfl

theorem processExc_readBit {run : C → DState C → DState C × Bool} {retc : C → Bool}
    (hpure : ∀ c s1, run c s1 = (s1, retc c)) (fd fd' : Nat) (s : DState C) :
    (processExc run fd s).1.select.read fd' = s.select.read fd' := by
  rcases processExc_pure_cases hpure fd s with hs | hs
  · rw [hs]
  · rw [hs]; simp

theorem processExc_writeBit {run : C → DState C → DState C × Bool} {retc : C → Bool}
    (hpure : ∀ c s1, run c s1 = (s1, retc c)) (fd fd' : Nat) (s : DState C) :
    (processExc run fd s).1.select.write fd' = s.select.write fd' := by
  rcases processExc_pure_cases hpure fd s with hs | hs
  · rw [hs]
  · rw [hs]; simp

theorem processExc_excBit {run : C → DState C → DState C × Bool} {retc : C → Bool}
    (hpure : ∀ c s1, run c s1 = (s1, retc c)) (fd : Nat) (s : DState C) :
    (processExc run fd s).1.select.exc fd = s.select.exc fd ∨
    (processExc run fd s).1.select.exc fd = false := by
  rcases processExc_pure_cases hpure fd s with hs | hs
  · rw [hs]; exact Or.inl rfl
  · rw [hs]; exact Or.inr (by simp)

theorem processRead_writeQ {run : C → DState C → DState C × Bool} {retc : C → Bool}
    (hpure : ∀ c s1, run c s1 = (s1, retc c)) (fuel fd : Nat) (s : DState C) :
    (getWatch (processRead run fuel fd s).1 fd).write_cb = (getWatch s fd).write_cb := by
  rcases processRead_pure_summary hpure fuel fd s with
    ⟨he, hs⟩ | ⟨he, hq, hs⟩ | ⟨he, hq, hoc, hs⟩ | ⟨he, hq, hoc, hs⟩
  · rw [hs]; rfl
  · have hlt := lt_of_read_cb_ne (List.isEmpty_eq_false.mp he)
    rw [hs, getWatch_setReadQ_self _ hlt]
  · have hlt := lt_of_read_cb_ne (List.isEmpty_eq_false.mp he)
    rw [hs, getWatch_setWatch_select_self _ _ hlt]
  · have hlt := lt_of_read_cb_ne (List.isEmpty_eq_false.mp he)
    rw [hs, getWatch_setWatch_select_self _ _ hlt]

theorem processWrite_readBit {run : C → DState C → DState C × Bool} {retc : C → Bool}
    (hpure : ∀ c s1, run c s1 = (s1, retc c)) (fuel fd : Nat) (s : DState C) :
    (processWrite run fuel fd s).1.select.read fd = s.select.read fd ∨
    (processWrite run fuel fd s).1.select.read fd = false := by
  rcases processWrite_pure_summary hpure fuel fd s with
    ⟨he, hs⟩ | ⟨he, hq, hs⟩ | ⟨he, hq, hoc, hs⟩ | ⟨he, hq, hoc, hs⟩
  · rw [hs]; exact Or.inl (by simp)
  · rw [hs]; exact Or.inl rfl
  · rw [hs]; exact Or.inl (by simp)
  · rw [hs]; exact Or.inr (by simp)

theorem processWrite_read_preserve {run : C → DState C → DState C × Bool} {retc : C → Bool}
    (hpure : ∀ c s1, run c s1 = (s1, retc c)) (fuel fd : Nat) (s : DState C)
    (hne : (getWatch s fd).read_cb ≠ []) :
    (getWatch (processWrite run fuel fd s).1 fd).read_cb = (getWatch s fd).read_cb ∧
    (processWrite run fuel fd s).1.select.read fd = s.select.read fd := by
  rcases processWrite_pure_summary hpure fuel fd s with
    ⟨he, hs⟩ | ⟨he, hq, hs⟩ | ⟨he, hq, hoc, hs⟩ | ⟨he, hq, hoc, hs⟩
  · rw [hs]; exact ⟨rfl, by simp⟩
  · have hlt := lt_of_write_cb_ne (List.isEmpty_eq_false.mp he)
    rw [hs, getWatch_setWriteQ_self _ hlt]
    exact ⟨rfl, rfl⟩
  · have hlt := lt_of_write_cb_ne (List.isEmpty_eq_false.mp he)
    rw [hs, getWatch_setWatch_select_self _ _ hlt]
    exact ⟨rfl, by simp⟩
  · rw [Bool.and_eq_true] at hoc
    exact absurd (List.isEmpty_iff.mp hoc.1) hne

theorem processFd_deact {run : C → DState C → DState C × Bool} {retc : C → Bool}
    (hpure : ∀ c s1, run c s1 = (s1, retc c)) (fuel : Nat) (ready : Ready)
    (fd : Nat) (s : DState C)
    (hact : (getWatch s fd).active = true)
    (hdead : (getWatch (processFd run fuel ready fd s).1 fd).active = false) :
    getWatch (processFd run fuel ready fd s).1 fd = default ∧
    (processFd run fuel ready fd s).1.select.read fd = false ∧
    (processFd run fuel ready fd s).1.select.write fd = false ∧
    (processFd run fuel ready fd s).1.select.exc fd = false := by
  rw [processFd_state] at hdead ⊢
  simp only [hact, if_true] at hdead ⊢
  have deadW : ∀ t : DState C,
      (getWatch t fd = default ∧ t.select.read fd = false ∧
       t.select.write fd = false ∧ t.select.exc fd = false) →
      (getWatch (if ready.inWrite fd then processWrite run fuel fd t else (t, [])).1 fd = default ∧
       (if ready.inWrite fd then processWrite run fuel fd t else (t, [])).1.select.read fd = false ∧
       (if ready.inWrite fd then processWrite run fuel fd t else (t, [])).1.select.write fd = false ∧
       (if ready.inWrite fd then processWrite run fuel fd t else (t, [])).1.select.exc fd = false) := by
    rintro t ⟨h1, h2, h3, h4⟩
    by_cases hw : ready.inWrite fd = true
    · simp only [hw, if_true]
      rw [processWrite_of_empty fuel (by rw [h1]; rfl)]
      exact ⟨by simpa using h1, by simpa using h2, by simp, by simpa using h4⟩
    · simp only [hw, Bool.false_eq_true, if_false]
      exact ⟨h1, h2, h3, h4⟩
  have deadX : ∀ t : DState C,
      (getWatch t fd = default ∧ t.select.read fd = false ∧
       t.select.write fd = false ∧ t.select.exc fd = false) →
      (getWatch (if ready.inExc fd then (processExc run fd t).1 else t) fd = default ∧
       (if ready.inExc fd then (processExc run fd t).1 else t).select.read fd = false ∧
       (if ready.inExc fd then (processExc run fd t).1 else t).select.write fd = false ∧
       (if ready.inExc fd then (processExc run fd t).1 else t).select.exc fd = false) := by
    rintro t ⟨h1, h2, h3, h4⟩
    by_cases hx : ready.inExc fd = true
    · simp only [hx, if_true]
      rw [processExc_of_none (by rw [h1]; rfl)]
      exact ⟨h1, h2, h3, h4⟩
    · simp only [hx, Bool.false_eq_true, if_false]
      exact ⟨h1, h2, h3, h4⟩
  set R1 := (if ready.inRead fd then processRead run fuel fd s else (s, [])).1 with hR1def
  set B := (if ready.inWrite fd then processWrite run fuel fd R1 else (R1, [])).1 with hBdef
  have hr1 : (getWatch R1 fd).active = true ∨
      (getWatch R1 fd = default ∧ R1.select.read fd = false ∧
       R1.select.write fd = false ∧ R1.select.exc fd = false) := by
    rw [hR1def]
    by_cases hr : ready.inRead fd = true
    · simp only [hr, if_true]
      rcases processRead_deact hpure fuel fd s with h | h
      · exact Or.inl (h.trans hact)
      · exact Or.inr h
    · simp only [hr, Bool.false_eq_true, if_false]
      exact Or.inl hact
  have hB : (getWatch B fd).active = true ∨
      (getWatch B fd = default ∧ B.select.read fd = false ∧
       B.select.write fd = false ∧ B.select.exc fd = false) := by
    rcases hr1 with h1 | h1
    · rw [hBdef]
      by_cases hw : ready.inWrite fd = true
      · simp only [hw, if_true]
        rcases processWrite_deact hpure fuel fd R1 with h | h
        · exact Or.inl (h.trans h1)
        · exact Or.inr h
      · simp only [hw, Bool.false_eq_true, if_false]
        exact Or.inl h1
    · rw [hBdef]
      exact Or.inr (deadW R1 h1)
  rcases hB with h | h
  · exfalso
    have hF : (getWatch (if ready.inExc fd then (processExc run fd B).1 else B) fd).active
        = (getWatch B fd).active := by
      by_cases hx : ready.inExc fd = true
      · simp only [hx, if_true]
        rw [processExc_entry hpure]
      · simp only [hx, Bool.false_eq_true, if_false]
    rw [hF, h] at hdead
    simp at hdead
  · exact deadX B h

theorem processFd_missingWrite {run : C → DState C → DState C × Bool} {retc : C → Bool}
    (hpure : ∀ c s1, run c s1 = (s1, retc c)) (fuel : Nat) (ready : Ready)
    (fd : Nat) (s : DState C)
    (hact : (getWatch s fd).active = true)
    (hw : ready.inWrite fd = true)
    (hempty : (getWatch s fd).write_cb = []) :
    (processFd run fuel ready fd s).1.select.write fd = false := by
  rw [processFd_state]
  simp only [hact, if_true]
  set R1 := (if ready.inRead fd then processRead run fuel fd s else (s, [])).1 with hR1def
  have hq : (getWatch R1 fd).write_cb = [] := by
    rw [hR1def]
    by_cases hr : ready.inRead fd = true
    · simp only [hr, if_true]
      rw [processRead_writeQ hpure]
      exact hempty
    · simp only [hr, Bool.false_eq_true, if_false]
      exact hempty
  have hB : (if ready.inWrite fd then processWrite run fuel fd R1 else (R1, [])).1.select.write fd
      = false := by
    simp only [hw, if_true]
    rw [processWrite_of_empty fuel (List.isEmpty_iff.mpr hq)]
    simp
  by_cases hx : ready.inExc fd = true
  · simp only [hx, if_true]
    rw [processExc_writeBit hpure]
    exact hB
  · simp only [hx, Bool.false_eq_true, if_false]
    exact hB

theorem processFd_missingRead {run : C → DState C → DState C × Bool} {retc : C → Bool}
    (hpure : ∀ c s1, run c s1 = (s1, retc c)) (fuel : Nat) (ready : Ready)
    (fd : Nat) (s : DState C)
    (hact : (getWatch s fd).active = true)
    (hr : ready.inRead fd = true)
    (hempty : (getWatch s fd).read_cb = []) :
    (processFd run fuel ready fd s).1.select.read fd = false := by
  rw [processFd_state]
  simp only [hact, if_true]
  have hR1 : (if ready.inRead fd then processRead run fuel fd s else (s, [])).1.select.read fd
      = false := by
    simp only [hr, if_true]
    rw [processRead_of_empty fuel (List.isEmpty_iff.mpr hempty)]
    simp
  set R1 := (if ready.inRead fd then processRead run fuel fd s else (s, [])).1 with hR1def
  have hB : (if ready.inWrite fd then processWrite run fuel fd R1 else (R1, [])).1.select.read fd
      = false := by
    by_cases hw : ready.inWrite fd = true
    · simp only [hw, if_true]
      rcases processWrite_readBit hpure fuel fd R1 with h | h
      · rw [h]; exact hR1
      · exact h
    · simp only [hw, Bool.false_eq_true, if_false]
      exact hR1
  by_cases hx : ready.inExc fd = true
  · simp only [hx, if_true]
    rw [processExc_readBit hpure]
    exact hB
  · simp only [hx, Bool.false_eq_true, if_false]
    exact hB

theorem processFd_chain {run : C → DState C → DState C × Bool} {retc : C → Bool}
    (hpure : ∀ c s1, run c s1 = (s1, retc c)) (fuel : Nat) (ready : Ready)
    (fd : Nat) (s : DState C) (as : List C) (b : C) (bs : List C)
    (hact : (getWatch s fd).active = true)
    (hr : ready.inRead fd = true)
    (hq : (getWatch s fd).read_cb = as ++ b :: bs)
    (has : ∀ a ∈ as, retc a = false) (hb : retc b = true)
    (hfuel : as.length < fuel) :
    (getWatch (processFd run fuel ready fd s).1 fd).read_cb = b :: bs ∧
    (processFd run fuel ready fd s).1.select.read fd = s.select.read fd ∧
    ((processFd run fuel ready fd s).2.filter (fun e => e.kind == 0)) =
      (as ++ [b]).map (fun c => (⟨fd, 0, some c⟩ : Event C)) := by
  have hne : (getWatch s fd).read_cb ≠ [] := by rw [hq]; simp
  have he' : (getWatch s fd).read_cb.isEmpty = false := List.isEmpty_eq_false.mpr hne
  have hlt : fd < s.watch.length := lt_of_read_cb_ne hne
  have hcs : chainStep retc fuel (getWatch s fd).read_cb = (as ++ [b], b :: bs) := by
    rw [hq]; exact chainStep_spec as fuel b bs has hb hfuel
  have hR1state : (processRead run fuel fd s).1 = setReadQ s fd (b :: bs) := by
    rw [processRead_pure_ne hpure fuel he']
    show afterReadDrain fd (setReadQ s fd (chainStep retc fuel (getWatch s fd).read_cb).2) = _
    rw [hcs]
    exact afterReadDrain_of_ne (by rw [getWatch_setReadQ_self _ hlt]; rfl)
  have hR1events : (processRead run fuel fd s).2 =
      (as ++ [b]).map (fun c => (⟨fd, 0, some c⟩ : Event C)) := by
    rw [processRead_pure_ne hpure fuel he']
    show ((chainStep retc fuel (getWatch s fd).read_cb).1).map _ = _
    rw [hcs]
  constructor
  · -- the read queue after the whole descriptor processing
    rw [processFd_state]
    simp only [hact, if_true, hr]
    rw [hR1state]
    have hRq : (getWatch (setReadQ s fd (b :: bs)) fd).read_cb = b :: bs := by
      rw [getWatch_setReadQ_self _ hlt]
    have hB : (getWatch (if ready.inWrite fd then
        processWrite run fuel fd (setReadQ s fd (b :: bs)) else
          (setReadQ s fd (b :: bs), [])).1 fd).read_cb = b :: bs := by
      by_cases hw : ready.inWrite fd = true
      · simp only [hw, if_true]
        rw [(processWrite_read_preserve hpure fuel fd _ (by rw [hRq]; simp)).1]
        exact hRq
      · simp only [hw, Bool.false_eq_true, if_false]
        exact hRq
    by_cases hx : ready.inExc fd = true
    · simp only [hx, if_true]
      rw [processExc_entry hpure]
      exact hB
    · simp only [hx, Bool.false_eq_true, if_false]
      exact hB
  constructor
  · rw [processFd_state]
    simp only [hact, if_true, hr]
    rw [hR1state]
    have hRq : (getWatch (setReadQ s fd (b :: bs)) fd).read_cb = b :: bs := by
      rw [getWatch_setReadQ_self _ hlt]
    have hB : (if ready.inWrite fd then
        processWrite run fuel fd (setReadQ s fd (b :: bs)) else
          (setReadQ s fd (b :: bs), [])).1.select.read fd = s.select.read fd := by
      by_cases hw : ready.inWrite fd = true
      · simp only [hw, if_true]
        rw [(processWrite_read_preserve hpure fuel fd _ (by rw [hRq]; simp)).2]
        rfl
      · simp only [hw, Bool.false_eq_true, if_false]
        rfl
    by_cases hx : ready.inExc fd = true
    · simp only [hx, if_true]
      rw [processExc_readBit hpure]
      exact hB
    · simp only [hx, Bool.false_eq_true, if_false]
      exact hB
  · rw [processFd_trace]
    simp only [hact, if_true]
    rw [List.filter_append, List.filter_append]
    have hA : ((if ready.inRead fd then processRead run fuel fd s else (s, [])).2).filter
        (fun e => e.kind == 0) = (as ++ [b]).map (fun c => (⟨fd, 0, some c⟩ : Event C)) := by
      simp only [hr, if_true]
      rw [hR1events]
      rw [List.filter_eq_self.mpr]
      intro e hee
      rcases List.mem_map.mp hee with ⟨x, _, hx⟩
      subst hx
      rfl
    have hBnil : ∀ (t : DState C), ((if ready.inWrite fd then processWrite run fuel fd t
        else (t, [])).2).filter (fun e => e.kind == 0) = [] := by
      intro t
      rw [List.filter_eq_nil_iff]
      intro e hee
      by_cases hw : ready.inWrite fd = true
      · rw [hw, if_pos rfl] at hee
        have := (processWrite_events fuel fd t e hee).2
        simp [this]
      · rw [if_neg (by simpa using hw)] at hee
        simp at hee
    have hCnil : ∀ (t : DState C), ((if ready.inExc fd then processExc run fd t
        else (t, [])).2).filter (fun e => e.kind == 0) = [] := by
      intro t
      rw [List.filter_eq_nil_iff]
      intro e hee
      by_cases hx : ready.inExc fd = true
      · rw [hx, if_pos rfl] at hee
        have := (processExc_events fd t e hee).2
        simp [this]
      · rw [if_neg (by simpa using hx)] at hee
        simp at hee
    rw [hA, hBnil, hCnil]
    simp

theorem i2rw_unbounded {s : DState C} (h : I2RW s) : ∀ fd, InvRWAt s fd := by
  intro fd
  by_cases hlt : fd < s.watch.length
  · exact h fd hlt
  · intro hact
    exact absurd (lt_of_active hact) hlt

theorem selfVerifyPass_iff (s : DState C) :
    selfVerifyPass s = true ↔ (∀ fd, 3 ≤ fd → fd < s.watch.length → InvRWAt s fd) := by
  unfold selfVerifyPass
  rw [List.all_eq_true]
  constructor
  · intro h fd h3 hlen hact
    have hx := h fd (List.mem_range.mpr hlen)
    simp only [] at hx
    rw [if_neg (by omega)] at hx
    rw [if_pos hact] at hx
    rw [Bool.and_eq_true] at hx
    refine ⟨?_, ?_⟩
    · have h1 := hx.1
      revert h1
      cases (getWatch s fd).read_cb.isEmpty <;> cases hB : s.select.read fd <;> simp
    · have h1 := hx.2
      revert h1
      cases (getWatch s fd).write_cb.isEmpty <;> cases hB : s.select.write fd <;> simp
  · intro h fd hmem
    have hlen := List.mem_range.mp hmem
    simp only []
    by_cases h3 : fd < 3
    · rw [if_pos h3]
    · rw [if_neg h3]
      by_cases hact : (getWatch s fd).active = true
      · rw [if_pos hact]
        obtain ⟨h1, h2⟩ := h fd (by omega) hlen hact
        rw [Bool.and_eq_true]
        constructor
        · rw [h1]
          cases (getWatch s fd).read_cb.isEmpty <;> simp
        · rw [h2]
          cases (getWatch s fd).write_cb.isEmpty <;> simp
      · rw [if_neg hact]

/-- Claim C1: DispatchOne classifies the wait-primitive outcome: a
negative result with errno EINTR logs and returns normally with the watch
table and interest bits unchanged and no callback invoked; any other
negative result raises the exception carrying the underlying errno; a
zero result returns immediately with no callback invoked and no state
change. -/
theorem dispatchOne_wait_outcomes {C : Type} (run : C → DState C → DState C × Bool)
    (fuel : Nat) (s : DState C) :
    DispatchOne run fuel s (.neg EINTR) = .ok (s, []) ∧
    (∀ e : Int, e ≠ EINTR → DispatchOne run fuel s (.neg e) = .error e) ∧
    DispatchOne run fuel s .zero = .ok (s, []) := by
  refine ⟨by simp [DispatchOne], ?_, rfl⟩
  intro e he
  simp [DispatchOne, he]

/-- Witness for C1: concrete dispatcher state, errno 11 versus EINTR
versus a zero result. -/
theorem dispatchOne_wait_outcomes_witness :
    DispatchOne runIdx 5 stChain (.neg EINTR) = .ok (stChain, []) ∧
    DispatchOne runIdx 5 stChain (.neg 11) = .error 11 ∧
    DispatchOne runIdx 5 stChain .zero = .ok (stChain, []) :=
  ⟨(dispatchOne_wait_outcomes runIdx 5 stChain).1,
   (dispatchOne_wait_outcomes runIdx 5 stChain).2.1 11 (by decide),
   (dispatchOne_wait_outcomes runIdx 5 stChain).2.2⟩

/-- Claim C7: within one DispatchOne call on a positive wait result, every
recorded callback invocation concerns a descriptor numbered at least 3
(standard input/output/error are never dispatched), the trace is sorted by
descriptor number first and by kind (read before write before exception)
second, and descriptors 0-2 are left untouched whenever the invoked
callbacks leave them untouched. -/
theorem dispatchOne_ordering {C : Type} (run : C → DState C → DState C × Bool)
    (fuel : Nat) (ready : Ready) (s s' : DState C) (t : List (Event C))
    (hrun : DispatchOne run fuel s (.pos ready) = .ok (s', t)) :
    (∀ e ∈ t, 3 ≤ e.fd ∧ e.kind ≤ 2) ∧
    t.Pairwise (fun a b => eventKey a ≤ eventKey b) ∧
    (∀ fd2, fd2 < 3 → PreservesFd run fd2 → SameAt s s' fd2) := by
  rw [show DispatchOne run fuel s (.pos ready)
      = Except.ok (loopFds run fuel ready fuel 3 s) from rfl] at hrun
  injection hrun with h
  rw [Prod.ext_iff] at h
  obtain ⟨h1, h2⟩ := h
  have h1' : (loopFds run fuel ready fuel 3 s).1 = s' := h1
  have h2' : (loopFds run fuel ready fuel 3 s).2 = t := h2
  refine ⟨?_, ?_, ?_⟩
  · rw [← h2']
    exact loopFds_events_lb fuel ready fuel 3 s
  · rw [← h2']
    exact loopFds_events_sorted fuel ready fuel 3 s
  · intro fd2 hlt hcb
    rw [← h1']
    exact loopFds_frame_lt hcb fuel ready fuel 3 s hlt

/-- Witness for C7 on the three-read-callback state. -/
theorem dispatchOne_ordering_witness :
    (∀ e ∈ (loopFds runIdx 5 rdChain 5 3 stChain).2, 3 ≤ e.fd ∧ e.kind ≤ 2) ∧
    ((loopFds runIdx 5 rdChain 5 3 stChain).2).Pairwise
      (fun a b => eventKey a ≤ eventKey b) ∧
    (∀ fd2, fd2 < 3 → PreservesFd runIdx fd2 →
      SameAt stChain (loopFds runIdx 5 rdChain 5 3 stChain).1 fd2) :=
  dispatchOne_ordering runIdx 5 rdChain stChain _ _ rfl

/-- Claim C10: a descriptor whose entry is inactive, or that is not marked
ready for read, write or exception in the snapshot, keeps its watch entry
and all three interest bits across DispatchOne, provided the invoked
callbacks do not modify that descriptor. -/
theorem dispatchOne_untouched_frame {C : Type} (run : C → DState C → DState C × Bool)
    (fuel : Nat) (ready : Ready) (fd2 : Nat) (s s' : DState C) (t : List (Event C))
    (hrun : DispatchOne run fuel s (.pos ready) = .ok (s', t))
    (hcb : PreservesFd run fd2)
    (hcond : (getWatch s fd2).active = false ∨
      (ready.inRead fd2 = false ∧ ready.inWrite fd2 = false ∧ ready.inExc fd2 = false)) :
    SameAt s s' fd2 := by
  rw [show DispatchOne run fuel s (.pos ready)
      = Except.ok (loopFds run fuel ready fuel 3 s) from rfl] at hrun
  injection hrun with h
  rw [Prod.ext_iff] at h
  obtain ⟨h1, h2⟩ := h
  have h1' : (loopFds run fuel ready fuel 3 s).1 = s' := h1
  rw [← h1']
  exact loopFds_frame_cond hcb fuel fuel 3 s hcond

/-- Witness for C10: descriptor 4 is not in the table (inactive), so one
dispatch of the three-read-callback scenario leaves it untouched. -/
theorem dispatchOne_untouched_frame_witness :
    SameAt stChain (loopFds runIdx 5 rdChain 5 3 stChain).1 4 :=
  dispatchOne_untouched_frame runIdx 5 rdChain 4 stChain _ _ rfl
    (fun _ s1 => sameAt_refl s1 4) (Or.inl rfl)

/-- Claim C2: for an active descriptor that is read-ready in the snapshot
with a non-empty read queue consisting of callbacks returning false
(prefix `as`), then one returning true (`b`), DispatchOne invokes exactly
the prefix and the first true-returning callback in order, pops exactly
the prefix, leaves `b` at the front of the queue (with the untouched
tail), and the read interest bit keeps its value (in particular stays
set). -/
theorem dispatchOne_read_chain {C : Type} {run : C → DState C → DState C × Bool}
    {retc : C → Bool} (hpure : ∀ c s1, run c s1 = (s1, retc c))
    (fuel : Nat) (ready : Ready) (fd : Nat) (s s' : DState C) (t : List (Event C))
    (as : List C) (b : C) (bs : List C)
    (hfd : 3 ≤ fd)
    (hact : (getWatch s fd).active = true)
    (hready : ready.inRead fd = true)
    (hq : (getWatch s fd).read_cb = as ++ b :: bs)
    (has : ∀ a ∈ as, retc a = false)
    (hb : retc b = true)
    (hfuel1 : as.length < fuel)
    (hfuel2 : s.watch.length ≤ fuel + 3)
    (hrun : DispatchOne run fuel s (.pos ready) = .ok (s', t)) :
    (getWatch s' fd).read_cb = b :: bs ∧
    s'.select.read fd = s.select.read fd ∧
    (t.filter (fun e => e.fd == fd && e.kind == 0)) =
      (as ++ [b]).map (fun c => (⟨fd, 0, some c⟩ : Event C)) := by
  have hlt : fd < s.watch.length := lt_of_active hact
  rw [show DispatchOne run fuel s (.pos ready)
      = Except.ok (loopFds run fuel ready fuel 3 s) from rfl] at hrun
  injection hrun with h
  rw [Prod.ext_iff] at h
  obtain ⟨h1, h2⟩ := h
  have h1' : (loopFds run fuel ready fuel 3 s).1 = s' := h1
  have h2' : (loopFds run fuel ready fuel 3 s).2 = t := h2
  rcases loopFds_split hpure fuel ready fd fuel 3 s hfd hlt (by omega) with
    ⟨s1, n1, t1, hsame, hlen1, hevt1, heq⟩
  have hS : s' = (loopFds run fuel ready n1 (fd + 1)
      (processFd run fuel ready fd s1).1).1 := by
    rw [← h1', heq]
  have hT : t = t1 ++ (processFd run fuel ready fd s1).2 ++
      (loopFds run fuel ready n1 (fd + 1) (processFd run fuel ready fd s1).1).2 := by
    rw [← h2', heq]
  have hg : getWatch s1 fd = getWatch s fd := getWatch_of_sameAt hsame
  have hact1 : (getWatch s1 fd).active = true := by rw [hg]; exact hact
  have hq1 : (getWatch s1 fd).read_cb = as ++ b :: bs := by rw [hg]; exact hq
  obtain ⟨hc1, hc2, hc3⟩ :=
    processFd_chain hpure fuel ready fd s1 as b bs hact1 hready hq1 has hb hfuel1
  have hrest : SameAt (processFd run fuel ready fd s1).1
      (loopFds run fuel ready n1 (fd + 1) (processFd run fuel ready fd s1).1).1 fd :=
    loopFds_frame_lt (pure_preservesFd hpure fd) fuel ready n1 (fd + 1) _
      (Nat.lt_succ_self fd)
  refine ⟨?_, ?_, ?_⟩
  · rw [hS, getWatch_of_sameAt hrest]
    exact hc1
  · rw [hS, hrest.2.1, hc2, hsame.2.1]
  · rw [hT, List.filter_append, List.filter_append]
    have hT1 : t1.filter (fun e => e.fd == fd && e.kind == 0) = [] := by
      rw [List.filter_eq_nil_iff]
      intro e he
      have hev := hevt1 e he
      simp only [Bool.and_eq_true, beq_iff_eq]
      rintro ⟨hh, _⟩
      omega
    have hcg : ((processFd run fuel ready fd s1).2).filter
        (fun e => e.fd == fd && e.kind == 0) =
        ((processFd run fuel ready fd s1).2).filter (fun e => e.kind == 0) := by
      refine List.filter_congr ?_
      intro e he
      have h0 := (processFd_events fuel ready fd s1 e he).1
      simp [h0]
    have hT3 : ((loopFds run fuel ready n1 (fd + 1)
        (processFd run fuel ready fd s1).1).2).filter
        (fun e => e.fd == fd && e.kind == 0) = [] := by
      rw [List.filter_eq_nil_iff]
      intro e he
      have hev := (loopFds_events_lb fuel ready n1 (fd + 1) _ e he).1
      simp only [Bool.and_eq_true, beq_iff_eq]
      rintro ⟨hh, _⟩
      omega
    rw [hT1, hcg, hc3, hT3]
    simp

set_option maxHeartbeats 2000000 in
/-- Witness for C2: three read callbacks 0, 1, 2 on descriptor 3
returning false, false, true; one ready event invokes all three, pops the
first two, keeps the third, and leaves the read interest bit set. -/
theorem dispatchOne_read_chain_witness :
    (getWatch (loopFds runIdx 5 rdChain 5 3 stChain).1 3).read_cb = [2] ∧
    (loopFds runIdx 5 rdChain 5 3 stChain).1.select.read 3 = stChain.select.read 3 ∧
    ((loopFds runIdx 5 rdChain 5 3 stChain).2.filter
      (fun e => e.fd == 3 && e.kind == 0)) =
      ([0, 1] ++ [2]).map (fun c => (⟨3, 0, some c⟩ : Event Nat)) :=
  dispatchOne_read_chain (fun c s1 => rfl) 5 rdChain 3 stChain
    (loopFds runIdx 5 rdChain 5 3 stChain).1 (loopFds runIdx 5 rdChain 5 3 stChain).2
    [0, 1] 2 []
    (by decide) rfl rfl rfl (by decide) rfl (by decide) (by decide) rfl

/-- Claim C3: with pure callbacks, whenever DispatchOne turns a
descriptor's active flag from true to false, the resulting entry is fully
drained (both queues empty, no exception handler) and all three interest
bits of that descriptor are cleared; the witness shows the converse
concrete scenario (one false-returning read callback, nothing else)
actually deactivates. -/
theorem dispatchOne_deactivation {C : Type} {run : C → DState C → DState C × Bool}
    {retc : C → Bool} (hpure : ∀ c s1, run c s1 = (s1, retc c))
    (fuel : Nat) (ready : Ready) (fd : Nat) (s s' : DState C) (t : List (Event C))
    (hfd : 3 ≤ fd)
    (hfuel : s.watch.length ≤ fuel + 3)
    (hact : (getWatch s fd).active = true)
    (hrun : DispatchOne run fuel s (.pos ready) = .ok (s', t))
    (hdead : (getWatch s' fd).active = false) :
    getWatch s' fd = ⟨false, [], [], none⟩ ∧
    s'.select.read fd = false ∧
    s'.select.write fd = false ∧
    s'.select.exc fd = false := by
  have hlt : fd < s.watch.length := lt_of_active hact
  rw [show DispatchOne run fuel s (.pos ready)
      = Except.ok (loopFds run fuel ready fuel 3 s) from rfl] at hrun
  injection hrun with h
  rw [Prod.ext_iff] at h
  obtain ⟨h1, h2⟩ := h
  have h1' : (loopFds run fuel ready fuel 3 s).1 = s' := h1
  rcases loopFds_split hpure fuel ready fd fuel 3 s hfd hlt (by omega) with
    ⟨s1, n1, t1, hsame, hlen1, hevt1, heq⟩
  have hS : s' = (loopFds run fuel ready n1 (fd + 1)
      (processFd run fuel ready fd s1).1).1 := by
    rw [← h1', heq]
  have hrest : SameAt (processFd run fuel ready fd s1).1
      (loopFds run fuel ready n1 (fd + 1) (processFd run fuel ready fd s1).1).1 fd :=
    loopFds_frame_lt (pure_preservesFd hpure fd) fuel ready n1 (fd + 1) _
      (Nat.lt_succ_self fd)
  have hact1 : (getWatch s1 fd).active = true := by
    rw [getWatch_of_sameAt hsame]; exact hact
  have hdead' : (getWatch (processFd run fuel ready fd s1).1 fd).active = false := by
    rw [hS, getWatch_of_sameAt hrest] at hdead
    exact hdead
  obtain ⟨hd1, hd2, hd3, hd4⟩ := processFd_deact hpure fuel ready fd s1 hact1 hdead'
  refine ⟨?_, ?_, ?_, ?_⟩
  · rw [hS, getWatch_of_sameAt hrest]
    exact hd1
  · rw [hS, hrest.2.1]
    exact hd2
  · rw [hS, hrest.2.2.1]
    exact hd3
  · rw [hS, hrest.2.2.2]
    exact hd4

/-- Witness for C3: descriptor 3 with one read callback returning false
and no write or exception registrations; after one ready read event the
entry is inactive and empty and no interest bits remain set. -/
theorem dispatchOne_deactivation_witness :
    getWatch (loopFds runRet 5 rdChain 5 3 stDrain).1 3 = ⟨false, [], [], none⟩ ∧
    (loopFds runRet 5 rdChain 5 3 stDrain).1.select.read 3 = false ∧
    (loopFds runRet 5 rdChain 5 3 stDrain).1.select.write 3 = false ∧
    (loopFds runRet 5 rdChain 5 3 stDrain).1.select.exc 3 = false :=
  dispatchOne_deactivation (fun c s1 => rfl) 5 rdChain 3 stDrain _ _
    (by decide) (by decide) rfl rfl (by decide)

/-- Claim C4 (amended): with pure callbacks, DispatchOne preserves the
read/write clauses of invariant I2 (for every active descriptor the read
interest bit equals non-emptiness of the read queue and the write
interest bit equals non-emptiness of the write queue), and the self-verify
scan asserts exactly these two clauses for every active in-range
descriptor from 3 on; the exception clause of I2 as the spec words it is
not preserved (see the counterexample). -/
theorem dispatchOne_rw_invariant {C : Type} {run : C → DState C → DState C × Bool}
    {retc : C → Bool} (hpure : ∀ c s1, run c s1 = (s1, retc c))
    (fuel : Nat) (ready : Ready) (s s' : DState C) (t : List (Event C))
    (hinv : I2RW s)
    (hrun : DispatchOne run fuel s (.pos ready) = .ok (s', t)) :
    I2RW s' ∧
    (selfVerifyPass s = true ↔ ∀ fd, 3 ≤ fd → fd < s.watch.length → InvRWAt s fd) := by
  rw [show DispatchOne run fuel s (.pos ready)
      = Except.ok (loopFds run fuel ready fuel 3 s) from rfl] at hrun
  injection hrun with h
  rw [Prod.ext_iff] at h
  obtain ⟨h1, h2⟩ := h
  have h1' : (loopFds run fuel ready fuel 3 s).1 = s' := h1
  constructor
  · intro fd hlen
    rw [← h1']
    exact loopFds_invAt hpure fuel ready fuel 3 s (i2rw_unbounded hinv) fd
  · exact selfVerifyPass_iff s

/-- Witness for C4 (amended) on the single-false-read-callback state. -/
theorem dispatchOne_rw_invariant_witness :
    I2RW (loopFds runRet 5 rdChain 5 3 stDrain).1 ∧
    (selfVerifyPass stDrain = true ↔
      ∀ fd, 3 ≤ fd → fd < stDrain.watch.length → InvRWAt stDrain fd) :=
  dispatchOne_rw_invariant (fun c s1 => rfl) 5 rdChain stDrain
    (loopFds runRet 5 rdChain 5 3 stDrain).1 (loopFds runRet 5 rdChain 5 3 stDrain).2
    (by decide) rfl

/-- Counterexample for C4 as stated: the full invariant I2 (including the
exception clause) holds before a DispatchOne call and fails after it.
Descriptor 3 is active with an exception callback returning false and the
exception bit set; the call clears the exception interest bit but leaves
the callback in its slot and the entry active, so afterwards the
exception bit is clear although a handler exists and the descriptor is
active. -/
theorem dispatchOne_i2full_cex :
    I2Full stExc ∧
    DispatchOne runRet 5 stExc (.pos rdExc) =
      .ok ((loopFds runRet 5 rdExc 5 3 stExc).1, (loopFds runRet 5 rdExc 5 3 stExc).2) ∧
    ¬ I2Full (loopFds runRet 5 rdExc 5 3 stExc).1 :=
  ⟨by decide, rfl, by decide⟩

/-- Claim C5: a watched (active) descriptor that reports readiness for an
interest type with an empty callback queue has that interest bit cleared,
DispatchOne continues and returns `.ok` (no exception propagates); both
the read and the write variant are stated. -/
theorem dispatchOne_missing_handler {C : Type} {run : C → DState C → DState C × Bool}
    {retc : C → Bool} (hpure : ∀ c s1, run c s1 = (s1, retc c))
    (fuel : Nat) (ready : Ready) (fd : Nat) (s : DState C)
    (hfd : 3 ≤ fd)
    (hfuel : s.watch.length ≤ fuel + 3)
    (hact : (getWatch s fd).active = true) :
    ∃ p : DState C × List (Event C),
      DispatchOne run fuel s (.pos ready) = .ok p ∧
      (ready.inRead fd = true → (getWatch s fd).read_cb = [] →
        p.1.select.read fd = false) ∧
      (ready.inWrite fd = true → (getWatch s fd).write_cb = [] →
        p.1.select.write fd = false) := by
  have hlt : fd < s.watch.length := lt_of_active hact
  refine ⟨loopFds run fuel ready fuel 3 s, rfl, ?_, ?_⟩
  · intro hr hempty
    rcases loopFds_split hpure fuel ready fd fuel 3 s hfd hlt (by omega) with
      ⟨s1, n1, t1, hsame, hlen1, hevt1, heq⟩
    have hrest : SameAt (processFd run fuel ready fd s1).1
        (loopFds run fuel ready n1 (fd + 1) (processFd run fuel ready fd s1).1).1 fd :=
      loopFds_frame_lt (pure_preservesFd hpure fd) fuel ready n1 (fd + 1) _
        (Nat.lt_succ_self fd)
    have hQ : (loopFds run fuel ready fuel 3 s).1 =
        (loopFds run fuel ready n1 (fd + 1) (processFd run fuel ready fd s1).1).1 := by
      rw [heq]
    show (loopFds run fuel ready fuel 3 s).1.select.read fd = false
    rw [hQ, hrest.2.1]
    exact processFd_missingRead hpure fuel ready fd s1
      (by rw [getWatch_of_sameAt hsame]; exact hact) hr
      (by rw [getWatch_of_sameAt hsame]; exact hempty)
  · intro hw hempty
    rcases loopFds_split hpure fuel ready fd fuel 3 s hfd hlt (by omega) with
      ⟨s1, n1, t1, hsame, hlen1, hevt1, heq⟩
    have hrest : SameAt (processFd run fuel ready fd s1).1
        (loopFds run fuel ready n1 (fd + 1) (processFd run fuel ready fd s1).1).1 fd :=
      loopFds_frame_lt (pure_preservesFd hpure fd) fuel ready n1 (fd + 1) _
        (Nat.lt_succ_self fd)
    have hQ : (loopFds run fuel ready fuel 3 s).1 =
        (loopFds run fuel ready n1 (fd + 1) (processFd run fuel ready fd s1).1).1 := by
      rw [heq]
    show (loopFds run fuel ready fuel 3 s).1.select.write fd = false
    rw [hQ, hrest.2.2.1]
    exact processFd_missingWrite hpure fuel ready fd s1
      (by rw [getWatch_of_sameAt hsame]; exact hact) hw
      (by rw [getWatch_of_sameAt hsame]; exact hempty)

/-- Witness for C5: descriptor 3 active with empty read and write queues,
reported read-ready and write-ready. -/
theorem dispatchOne_missing_handler_witness :
    ∃ p : DState Bool × List (Event Bool),
      DispatchOne runRet 5 stMiss (.pos rdMiss) = .ok p ∧
      (rdMiss.inRead 3 = true → (getWatch stMiss 3).read_cb = [] →
        p.1.select.read 3 = false) ∧
      (rdMiss.inWrite 3 = true → (getWatch stMiss 3).write_cb = [] →
        p.1.select.write 3 = false) :=
  dispatchOne_missing_handler (fun c s1 => rfl) 5 rdMiss 3 stMiss
    (by decide) (by decide) rfl

/-- Claim C6: `Interrupt()` retries the one-byte write while it reports
zero bytes, then succeeds exactly when the write reported one byte and
otherwise fails the fatal `die_unless(wb == 1)` assertion with the
offending result; it performs no watch-table or interest-bit mutation for
any sequence of write results. -/
theorem interrupt_spec {C : Type} (s : DState C) :
    (∀ (n : Nat) (wb : Int) (rest : List Int), wb ≠ 0 →
      Interrupt s (List.replicate n 0 ++ wb :: rest) =
        (s, some (if wb = 1 then InterruptOutcome.success
                  else InterruptOutcome.fatal wb))) ∧
    (∀ ws : List Int, (Interrupt s ws).1 = s) := by
  constructor
  · intro n wb rest hwb
    unfold Interrupt
    have hiw : ∀ m : Nat, interruptWrites (List.replicate m 0 ++ wb :: rest) =
        some (if wb = 1 then InterruptOutcome.success
              else InterruptOutcome.fatal wb) := by
      intro m
      induction m with
      | zero =>
        simp only [List.replicate, List.nil_append]
        unfold interruptWrites
        rw [if_neg hwb]
        by_cases h1 : wb = 1
        · rw [if_pos h1, if_pos h1]
        · rw [if_neg h1, if_neg h1]
      | succ m ih =>
        simp only [List.replicate, List.cons_append]
        unfold interruptWrites
        rw [if_pos rfl]
        exact ih
    rw [hiw n]
  · intro ws
    rfl

/-- Witness for C6: two zero-byte writes then a full write succeed; a
failed write (negative result) is fatal; the state is never touched. -/
theorem interrupt_spec_witness :
    Interrupt stChain (List.replicate 2 0 ++ 1 :: []) =
      (stChain, some InterruptOutcome.success) ∧
    Interrupt stChain (List.replicate 0 0 ++ (-1) :: []) =
      (stChain, some (InterruptOutcome.fatal (-1))) ∧
    (Interrupt stChain [0, 0, 1]).1 = stChain :=
  ⟨by rw [(interrupt_spec stChain).1 2 1 [] (by decide)]; rfl,
   by rw [(interrupt_spec stChain).1 0 (-1) [] (by decide)]; rfl,
   (interrupt_spec stChain).2 [0, 0, 1]⟩

/-- Claim C8: the self-pipe callback returns true for every sequence of
read results (so the interrupt channel is never retired), reads
repeatedly until the pipe reports no more data (it performs one read per
positive result plus the final non-positive one, or stops with the oracle
exhausted), and a front read callback returning true is invoked but kept,
leaving the dispatcher state unchanged. -/
theorem selfPipe_spec :
    (∀ rs : List Int, (selfPipeLoop rs).2 = true) ∧
    (∀ rs : List Int, (selfPipeLoop rs).1 =
      min ((rs.takeWhile fun r => decide (0 < r)).length + 1) rs.length) ∧
    (∀ (D : Type) (run : D → DState D → DState D × Bool) (c : D) (s : DState D)
      (fd fuel : Nat),
      (getWatch s fd).read_cb.head? = some c → run c s = (s, true) →
      drainRead run fd (fuel + 1) s = (s, [⟨fd, 0, some c⟩])) := by
  refine ⟨?_, ?_, ?_⟩
  · intro rs
    induction rs with
    | nil => rfl
    | cons r rest ih =>
      unfold selfPipeLoop
      by_cases h : 0 < r
      · simp only [h, if_true]
        exact ih
      · simp only [h, if_false]
  · intro rs
    induction rs with
    | nil => rfl
    | cons r rest ih =>
      by_cases h : 0 < r
      · have ht : (r :: rest).takeWhile (fun r => decide (0 < r)) =
            r :: rest.takeWhile (fun r => decide (0 < r)) := by
          simp [List.takeWhile_cons, h]
        unfold selfPipeLoop
        simp only [h, if_true]
        rw [ht, ih]
        simp only [List.length_cons]
        omega
      · have ht : (r :: rest).takeWhile (fun r => decide (0 < r)) = [] := by
          simp [List.takeWhile_cons, h]
        unfold selfPipeLoop
        simp only [h, if_false]
        rw [ht]
        simp only [List.length_cons, List.length_nil]
        omega
  · intro D run c s fd fuel hhead hrun
    obtain ⟨tl, hq⟩ : ∃ tl, (getWatch s fd).read_cb = c :: tl := by
      cases hc : (getWatch s fd).read_cb with
      | nil => rw [hc] at hhead; simp at hhead
      | cons a tl =>
        rw [hc] at hhead
        simp at hhead
        exact ⟨tl, by rw [hhead]⟩
    simp [drainRead, hq, hrun]

/-- Witness for C8: a pipe reporting data twice then empty is read three
times and the callback returns true; the armed self-pipe entry at
descriptor 3 is kept with the state unchanged. -/
theorem selfPipe_spec_witness :
    (selfPipeLoop [5, 3, 0, 7]).2 = true ∧
    (selfPipeLoop [5, 3, 0, 7]).1 =
      min (([5, 3, 0, 7].takeWhile fun r => decide (0 < (r : Int))).length + 1) 4 ∧
    drainRead runKeep 3 1 stPipe = (stPipe, [⟨3, 0, some ()⟩]) :=
  ⟨selfPipe_spec.1 [5, 3, 0, 7],
   selfPipe_spec.2.1 [5, 3, 0, 7],
   selfPipe_spec.2.2 Unit runKeep () stPipe 3 0 rfl rfl⟩
